import Mathlib

/-!
Verification of cronos-secuence: timer sequencer and sound player

A shallow embedding of `src/composables/useTimerSequence.js` (the
`TimerSecurity` helper class and the `useTimerSequence` composable) and of
the `play` path of `src/utils/audioPlayer.js`, followed by the properties
established about them.

Modelling conventions

* A JavaScript string is the list of its UTF-16 code units (`JsString`), so
  `length`, `slice`, `replace` and `trim` count exactly what the engine counts.
  Names are strings.
* A JavaScript number used as an id is a `JsNum`: `NaN`, the two infinities or
  a finite value (a rational).  The time fields `hh`, `mm`, `ss` and `duration`
  are integer-valued numbers of magnitude below 10^21 (`Int`); on those
  `parseInt` is the identity and `x || 0` is `x`.  (From 10^21 on `parseInt`
  reads the exponent form of the number; no operation of the sequencer stores
  such a field, and an entry accepted by `validateTimer` below has its fields
  in [0,23] and [0,59].)
* The value of `Date.now() + Math.random()` is supplied by the environment:
  every operation that may evaluate it takes it as the argument `fresh`, a
  stream when the operation maps over the list (the `i`-th value serves the
  `i`-th entry).
* Reactive refs are fields of the record `Sequencer`; the `setInterval` handle
  is the flag `intervalId` (an interval is armed or not); the completion
  callback is identified by a number and every invocation is appended to the
  log `finished`; a `TypeError` raised by reading a missing entry is counted
  in `uncaught`.  Callbacks do not call back into the sequencer.
* The callback of `watch(timers, ...)` is the function `watcher` on the list;
  it runs after the operation that changed the list, and again after each
  assignment it makes.
* An `async` method is cut at its `await`s into segments that run atomically.
-/

namespace Cronos

/-! ## JavaScript values -/

/-- UTF-16 code units of a JavaScript string. -/
abbrev JsString := List Nat

/-- Code units of an ASCII literal. -/
def js (s : String) : JsString := s.toList.map Char.toNat

/-- A JavaScript number. -/
inductive JsNum where
  | nan
  | negInf
  | posInf
  | fin (q : ℚ)
  deriving DecidableEq

namespace JsNum

/-- The global `isNaN` on a number. -/
def isNaN : JsNum → Bool
  | nan => true
  | _ => false

/-- The operator `a < b` on numbers. -/
def lt : JsNum → JsNum → Bool
  | nan, _ => false
  | _, nan => false
  | fin a, fin b => decide (a < b)
  | negInf, negInf => false
  | negInf, _ => true
  | _, negInf => false
  | posInf, _ => false
  | fin _, posInf => true

/-- The operator `a <= b` on numbers. -/
def le : JsNum → JsNum → Bool
  | nan, _ => false
  | _, nan => false
  | fin a, fin b => decide (a ≤ b)
  | negInf, _ => true
  | _, negInf => false
  | _, posInf => true
  | posInf, fin _ => false

/-- The operator `a === b` on numbers (`NaN` equals nothing). -/
def strictEq : JsNum → JsNum → Bool
  | nan, _ => false
  | _, nan => false
  | a, b => decide (a = b)

/-- The operator `a !== b` on numbers. -/
def strictNe (a b : JsNum) : Bool :=
  !strictEq a b

end JsNum

/-! ## Timer entries -/

/-- A timer object: the six properties `sanitizeTimer` produces. -/
structure Timer where
  id : JsNum
  name : JsString
  hh : Int
  mm : Int
  ss : Int
  duration : Int
  deriving DecidableEq

/-! ## class TimerSecurity -/

namespace TimerSecurity

def MAX_NAME_LENGTH : Nat := 32
def MAX_TIMERS : Nat := 50
def MAX_TOTAL_CHARS : Nat := 1000

/-- The constant `Number.MAX_SAFE_INTEGER`, 2^53 - 1. -/
def MAX_SAFE_INTEGER : ℚ := 9007199254740991

/-- Embeds `sanitizeId`: `Number(id)` is `id` on a number; an id that is `NaN`, not
positive or above `MAX_SAFE_INTEGER` is replaced by `Date.now() + Math.random()`
(the argument `fresh`). -/
def sanitizeId (fresh : ℚ) (id : JsNum) : JsNum :=
  let num := id
  if num.isNaN || num.le (.fin 0) || (JsNum.fin MAX_SAFE_INTEGER).lt num then
    .fin fresh
  else
    num

/-- The character class `[<>{}[\]\\]`: the code units of `<`, `>`, `{`, `}`,
`[`, `]` and the backslash. -/
def isDangerous (c : Nat) : Bool :=
  c == 60 || c == 62 || c == 123 || c == 125 || c == 91 || c == 93 || c == 92

/-- What `String.prototype.trim` removes: ECMAScript WhiteSpace and
LineTerminator code units. -/
def isTrimmed (c : Nat) : Bool :=
  c == 0x09 || c == 0x0A || c == 0x0B || c == 0x0C || c == 0x0D || c == 0x20 ||
  c == 0xA0 || c == 0x1680 || (0x2000 ≤ c && c ≤ 0x200A) || c == 0x2028 ||
  c == 0x2029 || c == 0x202F || c == 0x205F || c == 0x3000 || c == 0xFEFF

/-- Embeds `String.prototype.trim`. -/
def trim (s : JsString) : JsString :=
  (s.dropWhile isTrimmed).rdropWhile isTrimmed

/-- Embeds `sanitizeName` on a string: the empty name is returned as is; otherwise
`slice(0, 32)`, then every dangerous character is deleted, then `trim`. -/
def sanitizeName (name : JsString) : JsString :=
  if name = [] then []
  else
    let str := name.take MAX_NAME_LENGTH
    let str := str.filter (fun c => !isDangerous c)
    trim str

/-- Embeds `sanitizeNumber(value, min, max)` on an integer-valued number of
magnitude below 10^21: `parseInt(value) || 0` is `value`, which is never `NaN`. -/
def sanitizeNumber (value lo hi : Int) : Int :=
  let num := value
  min (max num lo) hi

/-- Embeds `sanitizeTimer` on a timer object. -/
def sanitizeTimer (fresh : ℚ) (timer : Timer) : Timer :=
  { id := sanitizeId fresh timer.id
    name := sanitizeName timer.name
    hh := sanitizeNumber timer.hh 0 23
    mm := sanitizeNumber timer.mm 0 59
    ss := sanitizeNumber timer.ss 0 59
    duration := timer.duration }

/-- Embeds `isValidId`: a number strictly between 0 and `MAX_SAFE_INTEGER`. -/
def isValidId (id : JsNum) : Bool :=
  (JsNum.fin 0).lt id && id.lt (.fin MAX_SAFE_INTEGER)

/-- Canonicalisation of a code unit by a case-insensitive regular expression
without the `u` flag, restricted to what can yield an ASCII code unit:
`a`..`z` go to `A`..`Z`, and a code unit above 127 never canonicalises to an
ASCII one, so it is left in place. -/
def canonicalize (c : Nat) : Nat :=
  if 97 ≤ c ∧ c ≤ 122 then c - 32 else c

/-- Whether the literal `pat` matches case-insensitively at the start of `s`. -/
def matchesAt : JsString → JsString → Bool
  | [], _ => true
  | _ :: _, [] => false
  | p :: ps, c :: cs => canonicalize p == canonicalize c && matchesAt ps cs

/-- The test `/[<>{}[\]\\]|script|javascript:/gi.test(name)`; the literal is
evaluated afresh at each call, so the search starts at index 0. -/
def dangerousPattern : JsString → Bool
  | [] => false
  | c :: cs =>
    isDangerous c || matchesAt (js "script") (c :: cs) ||
      matchesAt (js "javascript:") (c :: cs) || dangerousPattern cs

/-- Embeds `isValidName` on a string. -/
def isValidName (name : JsString) : Bool :=
  if name = [] then true
  else decide (name.length ≤ MAX_NAME_LENGTH) && !dangerousPattern name

/-- The first argument of `isValidTime`. -/
inductive TimeField where
  | hh | mm | ss

/-- Embeds `isValidTime(type, value)` on an integer-valued number of magnitude
below 10^21, where `parseInt(value)` is `value`. -/
def isValidTime (type : TimeField) (value : Int) : Bool :=
  let num := value
  if num < 0 then false
  else
    match type with
    | .hh => decide (num ≤ 23)
    | .mm => decide (num ≤ 59)
    | .ss => decide (num ≤ 59)

/-- Embeds `validateTimer` on a timer object. -/
def validateTimer (timer : Timer) : Bool :=
  if !isValidId timer.id then false
  else if !isValidName timer.name then false
  else
    isValidTime .hh timer.hh && isValidTime .mm timer.mm && isValidTime .ss timer.ss

end TimerSecurity

open TimerSecurity

/-! ## useTimerSequence: helpers -/

/-- Embeds `toSeconds(timer)`. -/
def toSeconds (timer : Timer) : Int :=
  timer.hh * 3600 + timer.mm * 60 + timer.ss

/-- Embeds `isValid(timer)`. -/
def isValid (timer : Timer) : Bool :=
  decide (toSeconds timer > 0)

/-! ## useTimerSequence: state -/

/-- The refs and closure variables of one `useTimerSequence()` instance. -/
structure Sequencer where
  timers : List Timer
  currentIndex : Nat
  remainingTime : Int
  isRunning : Bool
  repeat_ : Bool
  playSounds : Bool
  /-- Whether `intervalId` designates an armed interval. -/
  intervalId : Bool
  /-- The stored completion callback, if any. -/
  onFinish : Option Nat
  /-- Log of the completion callbacks invoked so far, oldest first. -/
  finished : List Nat
  /-- Number of end-of-timer sounds scheduled so far. -/
  soundsScheduled : Nat
  /-- Number of uncaught `TypeError`s raised by reading `.duration` of a
  missing entry. -/
  uncaught : Nat
  deriving DecidableEq

/-- The state right after `useTimerSequence()` returns. -/
def Sequencer.init : Sequencer :=
  { timers := [], currentIndex := 0, remainingTime := 0, isRunning := false,
    repeat_ := false, playSounds := true, intervalId := false, onFinish := none,
    finished := [], soundsScheduled := 0, uncaught := 0 }

/-! ## The watcher on `timers` -/

/-- The name cut applied when the total is exceeded: names longer than 20
code units become their first 20 code units followed by `...`. -/
def clipName (timer : Timer) : Timer :=
  if timer.name.length > 20 then { timer with name := timer.name.take 20 ++ js "..." }
  else timer

/-- One run of the callback of `watch(timers, ..., { deep: true })` on the
list `newTimers`; the result is the value of `timers` when it returns. -/
def watcher (fresh : Nat → ℚ) (newTimers : List Timer) : List Timer :=
  if newTimers.length > MAX_TIMERS then
    newTimers.take MAX_TIMERS
  else
    let sanitizedTimers := newTimers.mapIdx (fun i timer => sanitizeTimer (fresh i) timer)
    let totalChars := (sanitizedTimers.map (fun t => t.name.length)).sum
    let sanitizedTimers :=
      if totalChars > MAX_TOTAL_CHARS then sanitizedTimers.map clipName
      else sanitizedTimers
    if sanitizedTimers ≠ newTimers then sanitizedTimers else newTimers

/-- The watcher runs again after each assignment it makes; `flush` performs
one run per stream of `passes`, in order. -/
def flush (passes : List (Nat → ℚ)) (timers : List Timer) : List Timer :=
  passes.foldl (fun ts fresh => watcher fresh ts) timers

/-! ## CRUD -/

/-- Embeds `addTimer(timer)`. -/
def addTimer (fresh : ℚ) (timer : Timer) (s : Sequencer) : Sequencer :=
  let sanitizedTimer := sanitizeTimer fresh timer
  if validateTimer sanitizedTimer then
    { s with timers := s.timers ++ [{ sanitizedTimer with duration := toSeconds sanitizedTimer }] }
  else
    s

/-- Embeds `removeTimer(id)`. -/
def removeTimer (fresh : ℚ) (id : JsNum) (s : Sequencer) : Sequencer :=
  let sanitizedId := sanitizeId fresh id
  { s with timers := s.timers.filter (fun t => t.id.strictNe sanitizedId) }

/-- Embeds `updateTimerName(id, newName)`. -/
def updateTimerName (fresh : ℚ) (id : JsNum) (newName : JsString) (s : Sequencer) : Sequencer :=
  let sanitizedId := sanitizeId fresh id
  match s.timers.findIdx? (fun t => t.id.strictEq sanitizedId) with
  | some index =>
    let sanitizedName := sanitizeName newName
    if isValidName sanitizedName then
      { s with timers := s.timers.modify (fun t => { t with name := sanitizedName }) index }
    else
      s
  | none => s

/-! ## Control -/

/-- Embeds `finish()`: disarm the interval, clear `isRunning`, call `onFinish` if set. -/
def finish (s : Sequencer) : Sequencer :=
  let s := { s with intervalId := false }
  let s := { s with isRunning := false }
  match s.onFinish with
  | some cb => { s with finished := s.finished ++ [cb] }
  | none => s

/-- The assignment `remainingTime.value = timers.value[currentIndex.value].duration`;
reading `.duration` of `undefined` throws a `TypeError` and assigns nothing. -/
def loadCurrent (s : Sequencer) : Sequencer :=
  match s.timers[s.currentIndex]? with
  | some timer => { s with remainingTime := timer.duration }
  | none => { s with uncaught := s.uncaught + 1 }

/-- Embeds `next()`. -/
def next (s : Sequencer) : Sequencer :=
  let s := { s with currentIndex := s.currentIndex + 1 }
  if s.currentIndex ≥ s.timers.length then
    if s.repeat_ then
      loadCurrent { s with currentIndex := 0 }
    else
      finish s
  else
    loadCurrent s

/-- One firing of the callback installed by `run()`; it fires only while the
interval is armed. -/
def tick (s : Sequencer) : Sequencer :=
  if !s.intervalId then s
  else if s.remainingTime ≤ 1 then
    let s :=
      if s.playSounds && s.remainingTime == 1 then
        { s with soundsScheduled := s.soundsScheduled + 1 }
      else s
    next s
  else
    { s with remainingTime := s.remainingTime - 1 }

/-- Embeds `run()`: `clearInterval` then `setInterval`. -/
def run (s : Sequencer) : Sequencer :=
  { s with intervalId := true }

/-- Embeds `start(callback)`. -/
def start (fresh : Nat → ℚ) (callback : Nat) (s : Sequencer) : Sequencer :=
  if s.isRunning then s
  else
    let validTimers := s.timers.filter (fun t =>
      let isValidTimer := validateTimer t
      let hasTime := decide (toSeconds t > 0)
      isValidTimer && hasTime)
    if validTimers.length = 0 then s
    else
      let sanitized := validTimers.mapIdx
        (fun i t => { sanitizeTimer (fresh i) t with duration := toSeconds t })
      let s := { s with timers := sanitized }
      let s := { s with onFinish := some callback }
      let s := { s with isRunning := true }
      let s := { s with currentIndex := 0 }
      run (loadCurrent s)

/-- Embeds `stop()`. -/
def stop (s : Sequencer) : Sequencer :=
  { s with intervalId := false, isRunning := false, currentIndex := 0, remainingTime := 0 }

/-- Embeds `pause()`. -/
def pause (s : Sequencer) : Sequencer :=
  { s with intervalId := false, isRunning := false }

/-- Embeds `resume()`. -/
def resume (s : Sequencer) : Sequencer :=
  if !s.isRunning && decide (s.remainingTime > 0) then
    run { s with isRunning := true }
  else
    s

/-- The state after `k` firings of the interval callback. -/
def ticks : Nat → Sequencer → Sequencer
  | 0, s => s
  | k + 1, s => ticks k (tick s)

/-! ## Expected countdown of a run -/

/-- The values `d, d-1, ..., 1` shown while an entry of duration `d` is active. -/
def countdown (d : Int) : List Int :=
  (List.range d.toNat).map (fun (j : Nat) => d - (j : Int))

/-- The values shown during one pass over entries of durations `ds`. -/
def schedule : List Int → List Int
  | [] => []
  | d :: ds => countdown d ++ schedule ds

/-- The values of `remainingTime` observed before each of the first `n` ticks. -/
def remainingTrace (n : Nat) (s : Sequencer) : List Int :=
  (List.range n).map (fun k => (ticks k s).remainingTime)

/-! ## Sequences of operations

The host calls one operation per event-loop task and the interval callback is
a task of its own; the runs of the list watcher queued by a task are performed
before the next task starts.  A step is thus an operation followed by some
runs of the watcher. -/

/-- The operations of the composable and the firing of the interval. -/
inductive Op where
  | addTimer (fresh : ℚ) (timer : Timer)
  | removeTimer (fresh : ℚ) (id : JsNum)
  | updateTimerName (fresh : ℚ) (id : JsNum) (newName : JsString)
  | start (fresh : Nat → ℚ) (callback : Nat)
  | tick
  | pause
  | resume
  | stop

/-- The effect of an operation. -/
def Op.apply : Op → Sequencer → Sequencer
  | .addTimer fresh timer => Cronos.addTimer fresh timer
  | .removeTimer fresh id => Cronos.removeTimer fresh id
  | .updateTimerName fresh id newName => Cronos.updateTimerName fresh id newName
  | .start fresh callback => Cronos.start fresh callback
  | .tick => Cronos.tick
  | .pause => Cronos.pause
  | .resume => Cronos.resume
  | .stop => Cronos.stop

/-- An operation followed by the runs `passes` of the list watcher. -/
def step (s : Sequencer) (op : Op × List (Nat → ℚ)) : Sequencer :=
  let s := op.1.apply s
  { s with timers := flush op.2 s.timers }

/-- The state reached from `s` by a sequence of steps. -/
def runOps (ops : List (Op × List (Nat → ℚ))) (s : Sequencer) : Sequencer :=
  ops.foldl step s

/-- The condition under which a step keeps the cursor inside the list:
`addTimer` is followed by at least one run of the watcher, `removeTimer` is
called while the sequencer is not running, and `resume()` is called with the
cursor on an entry (after a pause, not after a finished run). -/
def Guard (s : Sequencer) : Op × List (Nat → ℚ) → Prop
  | (.addTimer _ _, passes) => passes ≠ []
  | (.removeTimer _ _, _) => s.isRunning = false
  | (.resume, _) => s.currentIndex < s.timers.length
  | _ => True

/-- The states reached from the initial one by steps that satisfy `Guard`. -/
inductive GuardedReach : Sequencer → Prop
  | init : GuardedReach Sequencer.init
  | step (s : Sequencer) (op : Op × List (Nat → ℚ)) :
      GuardedReach s → Guard s op → GuardedReach (step s op)

/-! ## AudioPlayer (src/utils/audioPlayer.js)

`play` is an `async` method: a call runs synchronously up to its first
`await`, where it is suspended and other code runs; it is resumed later with
the awaited result.  A call is therefore a sequence of segments: `play` is the
segment from the entry of the method, `playResume` the segment that follows an
`await`.  Each segment ends with a returned handle (`null` is `none`), a
rejection, or a new suspension.  The platform (audio support, network and
decoder) is the parameter `Platform`. -/

/-- The `state` of an `AudioContext`. -/
inductive ContextState where
  | suspended | running | closed
  deriving DecidableEq

/-- The keys passed to `play`: the two of `soundFiles`, or any other string. -/
inductive SoundKey where
  | timerEnd
  | buttonClick
  | other (key : String)
  deriving DecidableEq

/-- An entry of `soundFiles`; a decoded buffer is identified by a number. -/
structure SoundConfig where
  url : String
  fallback : Option String
  isPreloaded : Bool
  buffer : Option Nat
  deriving DecidableEq

/-- The fields of an `AudioPlayer`; `audioContext` is `none` for `null`. -/
structure AudioPlayer where
  audioContext : Option ContextState
  sounds : List (String × Nat)
  isInitialized : Bool
  isMuted : Bool
  maxConcurrentSounds : Int
  activeSounds : Int
  timerEnd : SoundConfig
  buttonClick : SoundConfig
  /-- Number of buffer sources started so far. -/
  started : Nat
  deriving DecidableEq

/-- What the browser provides. -/
structure Platform where
  /-- Whether `window.AudioContext || window.webkitAudioContext` exists. -/
  hasAudioContext : Bool
  /-- The state of a freshly created context. -/
  newContextState : ContextState
  /-- The buffer obtained by fetching and decoding a URL, `none` when the
  request or the decoding fails. -/
  fetchDecode : String → Option Nat

namespace AudioPlayer

/-- The state built by the constructor. -/
def new : AudioPlayer :=
  { audioContext := none, sounds := [], isInitialized := false, isMuted := false,
    maxConcurrentSounds := 3, activeSounds := 0,
    timerEnd := { url := "/sounds/timer-end.wav", fallback := some "/sounds/timer-end.ogg",
                  isPreloaded := false, buffer := none },
    buttonClick := { url := "/sounds/button-click.wav", fallback := none,
                     isPreloaded := false, buffer := none },
    started := 0 }

/-- The lookup `this.soundFiles[soundKey]`. -/
def soundFiles (p : AudioPlayer) : SoundKey → Option SoundConfig
  | .timerEnd => some p.timerEnd
  | .buttonClick => some p.buttonClick
  | .other _ => none

/-- Embeds `loadAudioBuffer(url)`, from the call to the settlement of its promise:
the cached buffer if there is one; otherwise the request and the decoding,
which reject when either fails or when there is no audio context, and on
success store the buffer in the cache.  `none` is a rejection. -/
def loadAudioBuffer (env : Platform) (p : AudioPlayer) (url : String) :
    AudioPlayer × Option Nat :=
  match p.sounds.lookup url with
  | some buffer => (p, some buffer)
  | none =>
    match env.fetchDecode url with
    | none => (p, none)
    | some audioBuffer =>
      if p.audioContext.isNone then (p, none)
      else ({ p with sounds := (url, audioBuffer) :: p.sounds }, some audioBuffer)

/-- Embeds `preloadSound('timerEnd')`, from the call to the settlement of its promise.
A resolved buffer is never falsy, so the fallback is not tried; a rejection
is caught and logged. -/
def preloadTimerEnd (env : Platform) (p : AudioPlayer) : AudioPlayer :=
  if p.timerEnd.isPreloaded then p
  else
    match loadAudioBuffer env p p.timerEnd.url with
    | (p, some buffer) =>
      { p with timerEnd := { p.timerEnd with buffer := some buffer, isPreloaded := true } }
    | (p, none) => p

/-- The method `initialize()`, from the call to the settlement of its promise,
with the value it resolves to. -/
def initialise (env : Platform) (p : AudioPlayer) : AudioPlayer × Bool :=
  if p.isInitialized then (p, true)
  else if !env.hasAudioContext then (p, false)
  else
    let p := { p with audioContext := some env.newContextState }
    let p := preloadTimerEnd env p
    let p := { p with isInitialized := true }
    (p, true)

/-- Where a call of `play` is suspended. -/
inductive Pending where
  /-- At `await this.initialize()`. -/
  | initialise (soundKey : SoundKey)
  /-- At `await this.audioContext.resume()`. -/
  | resumeContext (soundKey : SoundKey)
  /-- At `await this.loadAudioBuffer(soundConfig.url)`. -/
  | load (soundConfig : SoundConfig)
  deriving DecidableEq

/-- How a segment of `play` ends. -/
inductive Outcome where
  /-- The promise resolves to a handle (`some source`) or to `null`. -/
  | returned (handle : Option Nat)
  /-- The promise rejects (a `TypeError` outside the `try`). -/
  | rejected
  /-- The call is suspended at an `await`. -/
  | awaiting (at_ : Pending)
  deriving DecidableEq

/-- Lines 162-200: build the source and gain nodes, count the sound, start it
and return the handle.  Node construction is assumed not to throw. -/
def playBuffer (p : AudioPlayer) (_buffer : Nat) : AudioPlayer × Outcome :=
  let source := p.started
  let p := { p with activeSounds := p.activeSounds + 1 }
  let p := { p with started := p.started + 1 }
  (p, .returned (some source))

/-- Lines 139-160: look the key up, take the preloaded buffer or load it. -/
def playConfig (p : AudioPlayer) (soundKey : SoundKey) : AudioPlayer × Outcome :=
  match soundFiles p soundKey with
  | none => (p, .returned none)
  | some soundConfig =>
    match soundConfig.buffer with
    | some buffer => playBuffer p buffer
    | none => (p, .awaiting (.load soundConfig))

/-- Lines 134-137: resume a suspended context. -/
def playContext (p : AudioPlayer) (soundKey : SoundKey) : AudioPlayer × Outcome :=
  match p.audioContext with
  | none => (p, .rejected)
  | some .suspended => (p, .awaiting (.resumeContext soundKey))
  | some _ => playConfig p soundKey

/-- Embeds `play(soundKey, options)` from its entry to its first `await` or
return.  The options (volume, playback rate, delay) only set parameters of the
audio nodes and are left out, as is the `volume` field. -/
def play (p : AudioPlayer) (soundKey : SoundKey) : AudioPlayer × Outcome :=
  if p.isMuted then (p, .returned none)
  else if p.activeSounds ≥ p.maxConcurrentSounds then (p, .returned none)
  else if !p.isInitialized then (p, .awaiting (.initialise soundKey))
  else playContext p soundKey

/-- The segment of `play` that follows an `await`, once the awaited promise
has settled in the player state `p`. -/
def playResume (env : Platform) (p : AudioPlayer) : Pending → AudioPlayer × Outcome
  | .initialise soundKey =>
    match initialise env p with
    | (p, false) => (p, .returned none)
    | (p, true) => playContext p soundKey
  | .resumeContext soundKey =>
    playConfig { p with audioContext := p.audioContext.map (fun _ => .running) } soundKey
  | .load soundConfig =>
    match loadAudioBuffer env p soundConfig.url with
    | (p, some buffer) => playBuffer p buffer
    | (p, none) => ({ p with activeSounds := max 0 (p.activeSounds - 1) }, .returned none)

/-- The `onended` handler of a started source. -/
def ended (p : AudioPlayer) : AudioPlayer :=
  { p with activeSounds := p.activeSounds - 1 }

/-- Embeds `mute()`. -/
def mute (p : AudioPlayer) : AudioPlayer :=
  { p with isMuted := true }

/-- Embeds `unmute()`. -/
def unmute (p : AudioPlayer) : AudioPlayer :=
  { p with isMuted := false }

end AudioPlayer

/-! ## Concrete states used as examples -/

/-- The list `[{ss: 2}, {ss: 3}]` of the specification, as stored by `addTimer`. -/
def twoThree : Sequencer :=
  { Sequencer.init with
    timers := [⟨.fin 1, js "a", 0, 0, 2, 2⟩, ⟨.fin 2, js "b", 0, 0, 3, 3⟩] }

/-- A list of two entries with `hh = mm = ss = 0`. -/
def allZero : Sequencer :=
  { Sequencer.init with
    timers := [⟨.fin 1, js "a", 0, 0, 0, 0⟩, ⟨.fin 2, js "b", 0, 0, 0, 0⟩] }

/-- The entry number `i` (ids from 1) of a list of one-second timers named `name`. -/
def entry (name : JsString) (i : Nat) : Timer :=
  ⟨.fin ((i + 1 : Nat) : ℚ), name, 0, 0, 1, 1⟩

/-- Fifty one-second entries with the one-letter name `a`. -/
def fiftyShort : Sequencer :=
  { Sequencer.init with timers := (List.range 50).map (entry (js "a")) }

/-- The timer object `{id: 1, name: 'a', hh: 0, mm: 0, ss: 0}`. -/
def zeroTimer : Timer :=
  ⟨.fin 1, js "a", 0, 0, 0, 0⟩

/-- A browser with audio support where every request and decoding succeeds. -/
def browser : Platform :=
  { hasAudioContext := true, newContextState := .running, fetchDecode := fun _ => some 0 }

/-- The player after `initialize()` has completed in `browser`. -/
def readyPlayer : AudioPlayer :=
  (AudioPlayer.initialise browser AudioPlayer.new).1

/-- A clean name of 32 code units (32 times the letter `a`). -/
def longName : JsString :=
  List.replicate 32 97

/-- Fifty one-second entries named `longName`, as stored by `addTimer`. -/
def fiftyLong : Sequencer :=
  { Sequencer.init with timers := (List.range 50).map (entry longName) }

/-- The timer object `{id: 1, name: 'a', hh: 0, mm: 0, ss: 1}`. -/
def oneSecond : Timer :=
  ⟨.fin 1, js "a", 0, 0, 1, 0⟩

/-- Add a one-second timer, start, let it finish, then call `resume()`. -/
def resumeAfterFinish : List (Op × List (Nat → ℚ)) :=
  [(.addTimer 1 oneSecond, [fun _ => 1, fun _ => 1]), (.start (fun _ => 1) 7, [fun _ => 1]),
   (.tick, []), (.resume, [])]

/-- Add a one-second timer, start, then remove the timer while it runs. -/
def removeWhileRunning : List (Op × List (Nat → ℚ)) :=
  [(.addTimer 1 oneSecond, [fun _ => 1, fun _ => 1]), (.start (fun _ => 1) 7, [fun _ => 1]),
   (.removeTimer 1 (.fin 1), [fun _ => 1])]

/-- Fifty `addTimer` calls with the name `longName`, each followed by three
runs of the watcher. -/
def addsWithWatch : List (Op × List (Nat → ℚ)) :=
  (List.range 50).map (fun i =>
    (.addTimer 1 { entry longName i with duration := 0 }, [fun _ => 1, fun _ => 1, fun _ => 1]))

/-- Fifty-one one-second entries named `a`, as stored by `addTimer`. -/
def fiftyOne : Sequencer :=
  { Sequencer.init with timers := (List.range 51).map (entry (js "a")) }

/-! ## Theorems -/

theorem ticks_add (a b : Nat) (s : Sequencer) : ticks (a + b) s = ticks b (ticks a s) := by
  induction a generalizing s with
  | zero => simp [ticks]
  | succ a ih => rw [Nat.add_right_comm]; exact ih (tick s)

theorem ticks_succ_last (k : Nat) (s : Sequencer) : ticks (k + 1) s = tick (ticks k s) := by
  rw [ticks_add]; rfl

theorem ticks_disarmed (k : Nat) (s : Sequencer) (h : s.intervalId = false) : ticks k s = s := by
  induction k with
  | zero => rfl
  | succ k ih => rw [ticks_succ_last, ih]; simp [tick, h]

theorem length_countdown (d : Int) : (countdown d).length = d.toNat := by
  simp [countdown]

theorem getElem?_countdown (d : Int) (k : Nat) (h : k < d.toNat) :
    (countdown d)[k]? = some (d - (k : Int)) := by
  simp [countdown, List.getElem?_map, List.getElem?_range h]

theorem ticks_countdown (j : Nat) (s : Sequencer) (harm : s.intervalId = true)
    (hj : (j : Int) < s.remainingTime) :
    ticks j s = { s with remainingTime := s.remainingTime - (j : Int) } := by
  induction j generalizing s with
  | zero => simp [ticks]
  | succ j ih =>
    have h1 : ¬ s.remainingTime ≤ 1 := by push_cast at hj; omega
    have ht : tick s = { s with remainingTime := s.remainingTime - 1 } := by
      simp [tick, harm, h1]
    show ticks j (tick s) = _
    have hj2 : (j : Int) < s.remainingTime - 1 := by push_cast at hj; omega
    rw [ht, ih { s with remainingTime := s.remainingTime - 1 } harm hj2]
    simp only [Sequencer.mk.injEq, true_and, and_true]
    push_cast; ring

/-- A tick at the last second of an entry that is not the last one. -/
theorem tick_advance (s : Sequencer) (t : Timer) (harm : s.intervalId = true)
    (h1 : s.remainingTime = 1) (ht : s.timers[s.currentIndex + 1]? = some t) :
    tick s = { s with
      soundsScheduled := if s.playSounds then s.soundsScheduled + 1 else s.soundsScheduled
      currentIndex := s.currentIndex + 1
      remainingTime := t.duration } := by
  have hlt : s.currentIndex + 1 < s.timers.length := by
    by_contra hc
    rw [List.getElem?_eq_none (by omega)] at ht
    cases ht
  cases hp : s.playSounds <;>
    simp [tick, harm, h1, next, loadCurrent, hp, ht, Nat.not_le.mpr hlt]

/-- A tick at the last second of the last entry, without repeat. -/
theorem tick_finish (s : Sequencer) (cb : Nat) (harm : s.intervalId = true)
    (h1 : s.remainingTime = 1) (hlast : s.currentIndex + 1 = s.timers.length)
    (hrep : s.repeat_ = false) (hcb : s.onFinish = some cb) :
    tick s = { s with
      soundsScheduled := if s.playSounds then s.soundsScheduled + 1 else s.soundsScheduled
      currentIndex := s.currentIndex + 1
      intervalId := false
      isRunning := false
      finished := s.finished ++ [cb] } := by
  cases hp : s.playSounds <;>
    simp [tick, harm, h1, next, finish, hp, hlast, hrep, hcb]

/-- The countdown of the entry under the cursor: after `k < d` ticks the
state only differs by `remainingTime = d - k`. -/
theorem ticks_within_entry (s : Sequencer) (harm : s.intervalId = true) (k : Nat)
    (hk : k < s.remainingTime.toNat) :
    ticks k s = { s with remainingTime := s.remainingTime - (k : Int) } :=
  ticks_countdown k s harm (by omega)

theorem getElem?_second_of_suffix {α : Type} (pre : List α) (t u : α) (rest : List α) :
    (pre ++ t :: u :: rest)[pre.length + 1]? = some u := by
  rw [List.getElem?_append_right (by omega)]
  simp

/-- A run without repeat started on entry `t`, with `rest` still to come. -/
theorem run_from (cb : Nat) (rest : List Timer) :
    ∀ (t : Timer) (pre : List Timer) (s : Sequencer),
    s.timers = pre ++ t :: rest → s.currentIndex = pre.length →
    s.remainingTime = t.duration → (∀ u ∈ t :: rest, 0 < u.duration) →
    s.intervalId = true → s.isRunning = true → s.repeat_ = false →
    s.onFinish = some cb →
    (∀ k, k < (schedule ((t :: rest).map Timer.duration)).length →
      (schedule ((t :: rest).map Timer.duration))[k]? = some (ticks k s).remainingTime ∧
      (ticks k s).isRunning = true ∧ (ticks k s).finished = s.finished ∧
      (ticks k s).uncaught = s.uncaught) ∧
    (ticks (schedule ((t :: rest).map Timer.duration)).length s).isRunning = false ∧
    (ticks (schedule ((t :: rest).map Timer.duration)).length s).intervalId = false ∧
    (ticks (schedule ((t :: rest).map Timer.duration)).length s).finished = s.finished ++ [cb] ∧
    (ticks (schedule ((t :: rest).map Timer.duration)).length s).uncaught = s.uncaught := by
  induction rest with
  | nil =>
    intro t pre s hts hidx hrem hpos harm hrun hrep hcb
    have hd : 0 < t.duration := hpos t (by simp)
    obtain ⟨n, hn⟩ : ∃ n : Nat, t.duration.toNat = n + 1 := ⟨t.duration.toNat - 1, by omega⟩
    have hlen : (schedule ([t].map Timer.duration)).length = n + 1 := by
      simp [schedule, length_countdown, hn]
    have hphase : ∀ k, k < n + 1 →
        ticks k s = { s with remainingTime := s.remainingTime - (k : Int) } :=
      fun k hk => ticks_within_entry s harm k (by rw [hrem]; omega)
    have hfin : ticks (n + 1) s = tick (ticks n s) := ticks_succ_last n s
    rw [hphase n (by omega)] at hfin
    rw [tick_finish { s with remainingTime := s.remainingTime - (n : Int) } cb harm
      (by show s.remainingTime - (n : Int) = 1; omega)
      (by show s.currentIndex + 1 = s.timers.length; simp [hts, hidx]) hrep hcb] at hfin
    rw [hlen]
    refine ⟨fun k hk => ?_, ?_⟩
    · rw [hphase k hk]
      refine ⟨?_, hrun, rfl, rfl⟩
      simp only [List.map, schedule, List.append_nil]
      rw [getElem?_countdown _ _ (by omega), hrem]
    · rw [hfin]; simp
  | cons u rest ih =>
    intro t pre s hts hidx hrem hpos harm hrun hrep hcb
    have hd : 0 < t.duration := hpos t (by simp)
    obtain ⟨n, hn⟩ : ∃ n : Nat, t.duration.toNat = n + 1 := ⟨t.duration.toNat - 1, by omega⟩
    have hsched : schedule ((t :: u :: rest).map Timer.duration) =
        countdown t.duration ++ schedule ((u :: rest).map Timer.duration) := by
      simp [schedule]
    have hphase : ∀ k, k < n + 1 →
        ticks k s = { s with remainingTime := s.remainingTime - (k : Int) } :=
      fun k hk => ticks_within_entry s harm k (by rw [hrem]; omega)
    have hstep : ticks (n + 1) s = tick (ticks n s) := ticks_succ_last n s
    rw [hphase n (by omega)] at hstep
    rw [tick_advance { s with remainingTime := s.remainingTime - (n : Int) } u harm
      (by show s.remainingTime - (n : Int) = 1; omega)
      (by show s.timers[s.currentIndex + 1]? = some u
          rw [hts, hidx]; exact getElem?_second_of_suffix pre t u rest)] at hstep
    have hih := ih u (pre ++ [t]) (ticks (n + 1) s)
      (by rw [hstep]; simp [hts]) (by rw [hstep]; simp [hidx]) (by rw [hstep])
      (fun v hv => hpos v (List.mem_cons_of_mem _ hv)) (by rw [hstep]; exact harm)
      (by rw [hstep]; exact hrun) (by rw [hstep]; exact hrep) (by rw [hstep]; exact hcb)
    have hfin0 : (ticks (n + 1) s).finished = s.finished := by rw [hstep]
    have hunc0 : (ticks (n + 1) s).uncaught = s.uncaught := by rw [hstep]
    have hsplit : ∀ k, ticks (n + 1 + k) s = ticks k (ticks (n + 1) s) := fun k => ticks_add _ _ _
    rw [hsched, List.length_append, length_countdown, hn]
    refine ⟨fun k hk => ?_, ?_⟩
    · by_cases hkn : k < n + 1
      · rw [hphase k hkn]
        refine ⟨?_, hrun, rfl, rfl⟩
        rw [List.getElem?_append_left (by rw [length_countdown, hn]; exact hkn),
          getElem?_countdown _ _ (by omega), hrem]
      · obtain ⟨j, rfl⟩ : ∃ j, k = n + 1 + j := ⟨k - (n + 1), by omega⟩
        rw [hsplit, List.getElem?_append_right (by rw [length_countdown, hn]; omega),
          length_countdown, hn, Nat.add_sub_cancel_left]
        have := hih.1 j (by omega)
        rw [hfin0, hunc0] at this
        exact this
    · rw [hsplit]
      have := hih.2
      rw [hfin0, hunc0] at this
      exact this

theorem length_schedule (ds : List Int) (hpos : ∀ d ∈ ds, 0 < d) :
    (schedule ds).length = ds.sum.toNat := by
  induction ds with
  | nil => simp [schedule]
  | cons d ds ih =>
    have hd : 0 < d := hpos d (by simp)
    have hrest : ∀ e ∈ ds, 0 < e := fun e he => hpos e (List.mem_cons_of_mem _ he)
    have hsum : 0 ≤ ds.sum := List.sum_nonneg (fun e he => le_of_lt (hrest e he))
    simp only [schedule, List.length_append, length_countdown, ih hrest, List.sum_cons]
    omega

theorem map_duration_start_entries (fresh : Nat → ℚ) (l : List Timer) :
    (l.mapIdx (fun i t => { sanitizeTimer (fresh i) t with duration := toSeconds t })).map
      Timer.duration = l.map toSeconds := by
  apply List.ext_getElem (by simp)
  intro i h1 h2
  simp

/-- What `start` does on an idle sequencer whose entries all pass the filter. -/
theorem start_of_all_valid (fresh : Nat → ℚ) (cb : Nat) (s : Sequencer)
    (hne : s.timers ≠ [])
    (hvalid : ∀ t ∈ s.timers, validateTimer t = true ∧ 0 < toSeconds t)
    (hidle : s.isRunning = false) :
    ∃ first rest,
      (first :: rest).map Timer.duration = s.timers.map toSeconds ∧
      start fresh cb s = { s with
        timers := first :: rest
        onFinish := some cb
        isRunning := true
        currentIndex := 0
        remainingTime := first.duration
        intervalId := true } := by
  have hfilter : s.timers.filter (fun t => validateTimer t && decide (toSeconds t > 0)) =
      s.timers := by
    rw [List.filter_eq_self]
    intro t ht
    simp [hvalid t ht]
  have hlen : s.timers.length ≠ 0 := by simpa using hne
  have hdur := map_duration_start_entries fresh s.timers
  cases hm : s.timers.mapIdx
      (fun i t => { sanitizeTimer (fresh i) t with duration := toSeconds t }) with
  | nil => simp [hne] at hm
  | cons first rest =>
    refine ⟨first, rest, by rw [← hm, hdur], ?_⟩
    simp [start, hidle, hfilter, hlen, hm, loadCurrent, run]

/-- A run without repeat from the first entry: the countdown shown, the
ticks during which the sequencer runs, and the single call of the callback. -/
theorem run_of_ready_state (cb : Nat) (s : Sequencer) (first : Timer) (rest : List Timer)
    (hts : s.timers = first :: rest) (hidx : s.currentIndex = 0)
    (hrem : s.remainingTime = first.duration) (hpos : ∀ u ∈ first :: rest, 0 < u.duration)
    (harm : s.intervalId = true) (hrun : s.isRunning = true) (hrep : s.repeat_ = false)
    (hcb : s.onFinish = some cb) :
    remainingTrace (s.timers.map Timer.duration).sum.toNat s =
        schedule (s.timers.map Timer.duration) ∧
      (∀ k, k < (s.timers.map Timer.duration).sum.toNat →
        (ticks k s).isRunning = true ∧ (ticks k s).finished = s.finished) ∧
      (∀ k, (s.timers.map Timer.duration).sum.toNat ≤ k →
        (ticks k s).isRunning = false ∧ (ticks k s).finished = s.finished ++ [cb]) := by
  have hposm : ∀ d ∈ s.timers.map Timer.duration, 0 < d := by
    intro d hd
    obtain ⟨t, ht, rfl⟩ := List.mem_map.mp hd
    exact hpos t (by rw [← hts]; exact ht)
  have hlen := length_schedule _ hposm
  have hrun := run_from cb rest first [] s (by rw [hts]; rfl) (by rw [hidx]; rfl) hrem hpos
    harm hrun hrep hcb
  rw [← hts, hlen] at hrun
  refine ⟨?_, fun k hk => ⟨(hrun.1 k hk).2.1, (hrun.1 k hk).2.2.1⟩, fun k hk => ?_⟩
  · apply List.ext_getElem?
    intro k
    by_cases hk : k < (s.timers.map Timer.duration).sum.toNat
    · rw [(hrun.1 k hk).1]
      simp [remainingTrace, List.getElem?_range hk]
    · rw [List.getElem?_eq_none (by simp [remainingTrace]; omega),
        List.getElem?_eq_none (by omega)]
  · obtain ⟨j, rfl⟩ : ∃ j, k = (s.timers.map Timer.duration).sum.toNat + j :=
      ⟨k - (s.timers.map Timer.duration).sum.toNat, by omega⟩
    rw [ticks_add, ticks_disarmed j _ hrun.2.2.1]
    exact ⟨hrun.2.1, hrun.2.2.2.1⟩

/-- A tick at the last second of the last entry, with repeat. -/
theorem tick_wrap (s : Sequencer) (first : Timer) (harm : s.intervalId = true)
    (h1 : s.remainingTime = 1) (hlast : s.currentIndex + 1 = s.timers.length)
    (hrep : s.repeat_ = true) (hfirst : s.timers[0]? = some first) :
    tick s = { s with
      soundsScheduled := if s.playSounds then s.soundsScheduled + 1 else s.soundsScheduled
      currentIndex := 0
      remainingTime := first.duration } := by
  cases hp : s.playSounds <;>
    simp [tick, harm, h1, next, loadCurrent, hp, hlast, hrep, hfirst]

/-- One pass with repeat, started on entry `t` with `rest` still to come: the
countdown is the scheduled one and the pass ends on the first entry. -/
theorem pass_from (first : Timer) (rest : List Timer) :
    ∀ (t : Timer) (pre : List Timer) (s : Sequencer),
    s.timers = pre ++ t :: rest → s.timers[0]? = some first →
    s.currentIndex = pre.length →
    s.remainingTime = t.duration → (∀ u ∈ t :: rest, 0 < u.duration) →
    s.intervalId = true → s.isRunning = true → s.repeat_ = true →
    (∀ k, k < (schedule ((t :: rest).map Timer.duration)).length →
      (schedule ((t :: rest).map Timer.duration))[k]? = some (ticks k s).remainingTime ∧
      (ticks k s).isRunning = true ∧ (ticks k s).finished = s.finished) ∧
    (ticks ((schedule ((t :: rest).map Timer.duration)).length - 1) s).currentIndex =
      pre.length + rest.length ∧
    (ticks (schedule ((t :: rest).map Timer.duration)).length s).timers = s.timers ∧
    (ticks (schedule ((t :: rest).map Timer.duration)).length s).currentIndex = 0 ∧
    (ticks (schedule ((t :: rest).map Timer.duration)).length s).remainingTime =
      first.duration ∧
    (ticks (schedule ((t :: rest).map Timer.duration)).length s).intervalId = true ∧
    (ticks (schedule ((t :: rest).map Timer.duration)).length s).isRunning = true ∧
    (ticks (schedule ((t :: rest).map Timer.duration)).length s).repeat_ = true ∧
    (ticks (schedule ((t :: rest).map Timer.duration)).length s).finished = s.finished := by
  induction rest with
  | nil =>
    intro t pre s hts hfirst hidx hrem hpos harm hrun hrep
    have hd : 0 < t.duration := hpos t (by simp)
    obtain ⟨n, hn⟩ : ∃ n : Nat, t.duration.toNat = n + 1 := ⟨t.duration.toNat - 1, by omega⟩
    have hlen : (schedule ([t].map Timer.duration)).length = n + 1 := by
      simp [schedule, length_countdown, hn]
    have hphase : ∀ k, k < n + 1 →
        ticks k s = { s with remainingTime := s.remainingTime - (k : Int) } :=
      fun k hk => ticks_within_entry s harm k (by rw [hrem]; omega)
    have hfin : ticks (n + 1) s = tick (ticks n s) := ticks_succ_last n s
    rw [hphase n (by omega)] at hfin
    rw [tick_wrap { s with remainingTime := s.remainingTime - (n : Int) } first harm
      (by show s.remainingTime - (n : Int) = 1; omega)
      (by show s.currentIndex + 1 = s.timers.length; simp [hts, hidx]) hrep hfirst] at hfin
    rw [hlen]
    refine ⟨fun k hk => ?_, ?_, ?_⟩
    · rw [hphase k hk]
      refine ⟨?_, hrun, rfl⟩
      simp only [List.map, schedule, List.append_nil]
      rw [getElem?_countdown _ _ (by omega), hrem]
    · rw [Nat.add_sub_cancel, hphase n (by omega)]; simpa using hidx
    · rw [hfin]; exact ⟨rfl, rfl, rfl, harm, hrun, hrep, rfl⟩
  | cons u rest ih =>
    intro t pre s hts hfirst hidx hrem hpos harm hrun hrep
    have hd : 0 < t.duration := hpos t (by simp)
    obtain ⟨n, hn⟩ : ∃ n : Nat, t.duration.toNat = n + 1 := ⟨t.duration.toNat - 1, by omega⟩
    have hsched : schedule ((t :: u :: rest).map Timer.duration) =
        countdown t.duration ++ schedule ((u :: rest).map Timer.duration) := by
      simp [schedule]
    have hphase : ∀ k, k < n + 1 →
        ticks k s = { s with remainingTime := s.remainingTime - (k : Int) } :=
      fun k hk => ticks_within_entry s harm k (by rw [hrem]; omega)
    have hstep : ticks (n + 1) s = tick (ticks n s) := ticks_succ_last n s
    rw [hphase n (by omega)] at hstep
    rw [tick_advance { s with remainingTime := s.remainingTime - (n : Int) } u harm
      (by show s.remainingTime - (n : Int) = 1; omega)
      (by show s.timers[s.currentIndex + 1]? = some u
          rw [hts, hidx]; exact getElem?_second_of_suffix pre t u rest)] at hstep
    have hih := ih u (pre ++ [t]) (ticks (n + 1) s)
      (by rw [hstep]; simp [hts]) (by rw [hstep]; exact hfirst)
      (by rw [hstep]; simp [hidx]) (by rw [hstep])
      (fun v hv => hpos v (List.mem_cons_of_mem _ hv)) (by rw [hstep]; exact harm)
      (by rw [hstep]; exact hrun) (by rw [hstep]; exact hrep)
    have hfin0 : (ticks (n + 1) s).finished = s.finished := by rw [hstep]
    have hts0 : (ticks (n + 1) s).timers = s.timers := by rw [hstep]
    have hsplit : ∀ k, ticks (n + 1 + k) s = ticks k (ticks (n + 1) s) := fun k => ticks_add _ _ _
    have hlpos : 0 < (schedule ((u :: rest).map Timer.duration)).length := by
      have hu : 0 < u.duration := hpos u (by simp)
      simp only [List.map, schedule, List.length_append, length_countdown]
      omega
    rw [hsched, List.length_append, length_countdown, hn]
    refine ⟨fun k hk => ?_, ?_, ?_⟩
    · by_cases hkn : k < n + 1
      · rw [hphase k hkn]
        refine ⟨?_, hrun, rfl⟩
        rw [List.getElem?_append_left (by rw [length_countdown, hn]; exact hkn),
          getElem?_countdown _ _ (by omega), hrem]
      · obtain ⟨j, rfl⟩ : ∃ j, k = n + 1 + j := ⟨k - (n + 1), by omega⟩
        rw [hsplit, List.getElem?_append_right (by rw [length_countdown, hn]; omega),
          length_countdown, hn, Nat.add_sub_cancel_left]
        have := hih.1 j (by omega)
        rw [hfin0] at this
        exact this
    · rw [Nat.add_sub_assoc hlpos, hsplit, hih.2.1]
      simp; omega
    · rw [hsplit]
      have := hih.2.2
      rw [hfin0, hts0] at this
      exact this

/-- A run with repeat from the first entry: it never stops nor calls the
callback, the cursor goes from the last index back to 0 every
`d_0 + ... + d_{n-1}` ticks, and the countdown shown is the scheduled one,
repeated. -/
theorem loop_of_ready_state (s : Sequencer) (first : Timer) (rest : List Timer)
    (hts : s.timers = first :: rest) (hidx : s.currentIndex = 0)
    (hrem : s.remainingTime = first.duration) (hpos : ∀ u ∈ first :: rest, 0 < u.duration)
    (harm : s.intervalId = true) (hrun : s.isRunning = true) (hrep : s.repeat_ = true) :
    (∀ k, (ticks k s).isRunning = true ∧ (ticks k s).finished = s.finished) ∧
      (∀ q, 0 < q →
        (ticks (q * (s.timers.map Timer.duration).sum.toNat - 1) s).currentIndex =
          s.timers.length - 1 ∧
        (ticks (q * (s.timers.map Timer.duration).sum.toNat) s).currentIndex = 0 ∧
        (ticks (q * (s.timers.map Timer.duration).sum.toNat) s).remainingTime =
          first.duration) ∧
      (∀ k, (schedule (s.timers.map Timer.duration))[k %
          (s.timers.map Timer.duration).sum.toNat]? = some (ticks k s).remainingTime) := by
  have hposm : ∀ d ∈ s.timers.map Timer.duration, 0 < d := by
    intro d hd
    obtain ⟨t, ht, rfl⟩ := List.mem_map.mp hd
    exact hpos t (by rw [← hts]; exact ht)
  have hlen := length_schedule _ hposm
  have hcount : s.timers.length = rest.length + 1 := by rw [hts]; rfl
  have htotal : 0 < (s.timers.map Timer.duration).sum.toNat := by
    have h0 : 0 < first.duration := hpos first (by simp)
    rw [← hlen, hts]
    simp only [List.map, schedule, List.length_append, length_countdown]
    omega
  have hD : (first :: rest).map Timer.duration = s.timers.map Timer.duration := by rw [hts]
  generalize hT : (s.timers.map Timer.duration).sum.toNat = total at hlen htotal ⊢
  -- the state at the beginning of every pass
  have hpass : ∀ q, (ticks (q * total) s).timers = first :: rest ∧
      (ticks (q * total) s).currentIndex = 0 ∧
      (ticks (q * total) s).remainingTime = first.duration ∧
      (ticks (q * total) s).intervalId = true ∧
      (ticks (q * total) s).isRunning = true ∧
      (ticks (q * total) s).repeat_ = true ∧
      (ticks (q * total) s).finished = s.finished := by
    intro q
    induction q with
    | zero =>
      rw [Nat.zero_mul]
      exact ⟨hts, hidx, hrem, harm, hrun, hrep, rfl⟩
    | succ q ih =>
      obtain ⟨h1, h2, h3, h4, h5, h6, h7⟩ := ih
      have hp := pass_from first rest first [] (ticks (q * total) s)
        (by rw [h1]; rfl) (by rw [h1]; simp) (by rw [h2]; rfl) h3 hpos h4 h5 h6
      rw [hD, hlen] at hp
      obtain ⟨-, -, e1, e2, e3, e4, e5, e6, e7⟩ := hp
      rw [← ticks_add, ← Nat.succ_mul] at e1 e2 e3 e4 e5 e6 e7
      exact ⟨e1.trans h1, e2, e3, e4, e5, e6, e7.trans h7⟩
  have hin : ∀ q r, r < total →
      (schedule (s.timers.map Timer.duration))[r]? =
        some (ticks (q * total + r) s).remainingTime ∧
      (ticks (q * total + r) s).isRunning = true ∧
      (ticks (q * total + r) s).finished = s.finished := by
    intro q r hr
    obtain ⟨h1, h2, h3, h4, h5, h6, h7⟩ := hpass q
    have hp := pass_from first rest first [] (ticks (q * total) s)
      (by rw [h1]; rfl) (by rw [h1]; simp) (by rw [h2]; rfl) h3 hpos h4 h5 h6
    rw [hD, hlen] at hp
    have := hp.1 r hr
    rw [← ticks_add, h7] at this
    exact this
  refine ⟨fun k => ?_, fun q hq => ?_, fun k => ?_⟩
  · have := hin (k / total) (k % total) (Nat.mod_lt _ htotal)
    rw [Nat.div_add_mod' k total] at this
    exact this.2
  · obtain ⟨p, rfl⟩ : ∃ p, q = p + 1 := ⟨q - 1, by omega⟩
    obtain ⟨h1, h2, h3, h4, h5, h6, h7⟩ := hpass p
    have hp := pass_from first rest first [] (ticks (p * total) s)
      (by rw [h1]; rfl) (by rw [h1]; simp) (by rw [h2]; rfl) h3 hpos h4 h5 h6
    rw [hD, hlen] at hp
    have hlast := hp.2.1
    rw [← ticks_add] at hlast
    have hidx2 : p * total + (total - 1) = (p + 1) * total - 1 := by
      rw [Nat.succ_mul]; omega
    refine ⟨?_, (hpass (p + 1)).2.1, (hpass (p + 1)).2.2.1⟩
    rw [← hidx2, hlast, hcount]; simp
  · have := hin (k / total) (k % total) (Nat.mod_lt _ htotal)
    rw [Nat.div_add_mod' k total] at this
    exact this.1

/-- C4: on an idle sequencer whose list has no entry of positive duration
(empty list included), `start(cb)` changes nothing at all: the list, cursor,
countdown, flags, armed interval, stored callback and call log are those of
before, `isRunning` is false, and if no interval was armed no tick ever
calls anything. -/
theorem start_is_rejected_without_positive_duration (fresh : Nat → ℚ) (cb : Nat)
    (s : Sequencer) (hidle : s.isRunning = false)
    (hnone : ∀ t ∈ s.timers, toSeconds t ≤ 0) :
    start fresh cb s = s ∧ (start fresh cb s).isRunning = false ∧
      (s.intervalId = false → ∀ k, ticks k (start fresh cb s) = s) := by
  have hfilter : s.timers.filter (fun t => validateTimer t && decide (toSeconds t > 0)) = [] := by
    rw [List.filter_eq_nil_iff]
    intro t ht
    have := hnone t ht
    simp
    intro _
    omega
  have hst : start fresh cb s = s := by simp [start, hidle, hfilter]
  refine ⟨hst, by rw [hst]; exact hidle, fun harm k => ?_⟩
  rw [hst]
  exact ticks_disarmed k s harm

/-- C4 on a list of two zero-duration entries. -/
theorem start_is_rejected_without_positive_duration_witness :
    start (fun _ => 1) 7 allZero = allZero ∧ (start (fun _ => 1) 7 allZero).isRunning = false ∧
      (ticks 10 (start (fun _ => 1) 7 allZero)).finished = [] :=
  have h := start_is_rejected_without_positive_duration (fun _ => 1) 7 allZero
    (by decide) (by decide)
  ⟨h.1, h.2.1, by rw [h.2.2 (by decide) 10]; rfl⟩

/-- C8: on a running sequencer `pause()` clears `isRunning`, disarms the
interval and leaves the cursor and the countdown as they are; `resume()` after
it leaves the cursor, the countdown and the list as before the pause, and when
`remainingTime > 0` it gives back the state of before the pause with the
interval armed, otherwise it does nothing. -/
theorem pause_resume_keeps_cursor_and_countdown (s : Sequencer) (hrun : s.isRunning = true) :
    (pause s).isRunning = false ∧ (pause s).intervalId = false ∧
      (pause s).currentIndex = s.currentIndex ∧ (pause s).remainingTime = s.remainingTime ∧
      (resume (pause s)).currentIndex = s.currentIndex ∧
      (resume (pause s)).remainingTime = s.remainingTime ∧
      (resume (pause s)).timers = s.timers ∧
      (0 < s.remainingTime → resume (pause s) = { s with intervalId := true }) ∧
      (s.remainingTime ≤ 0 → resume (pause s) = pause s) := by
  refine ⟨rfl, rfl, rfl, rfl, ?_, ?_, ?_, ?_, ?_⟩
  · simp only [resume, pause, run]; split <;> rfl
  · simp only [resume, pause, run]; split <;> rfl
  · simp only [resume, pause, run]; split <;> rfl
  · intro h
    simp [resume, pause, run, h, hrun.symm]
  · intro h
    have : ¬ 0 < s.remainingTime := by omega
    simp [resume, pause, run, this]

/-- C8 one tick into the run of `[2, 3]`. -/
theorem pause_resume_keeps_cursor_and_countdown_witness :
    (resume (pause (tick (start (fun _ => 1) 7 twoThree)))).remainingTime = 1 ∧
      (resume (pause (tick (start (fun _ => 1) 7 twoThree)))).currentIndex = 0 ∧
      resume (pause (tick (start (fun _ => 1) 7 twoThree))) =
        tick (start (fun _ => 1) 7 twoThree) :=
  have h := pause_resume_keeps_cursor_and_countdown (tick (start (fun _ => 1) 7 twoThree))
    (by decide)
  ⟨h.2.2.2.2.2.1, h.2.2.2.2.1, (h.2.2.2.2.2.2.2.1 (by decide)).trans (by decide)⟩

theorem length_watcher (fresh : Nat → ℚ) (ts : List Timer) :
    (watcher fresh ts).length = min ts.length MAX_TIMERS := by
  unfold watcher
  split
  · rw [List.length_take]; omega
  · rename_i h
    have hle : ts.length ≤ MAX_TIMERS := by omega
    rw [Nat.min_eq_left hle]
    simp only
    split <;> split <;> simp

theorem length_flush (passes : List (Nat → ℚ)) (ts : List Timer) (hp : passes ≠ []) :
    (flush passes ts).length = min ts.length MAX_TIMERS := by
  induction passes generalizing ts with
  | nil => exact absurd rfl hp
  | cons f fs ih =>
    cases fs with
    | nil => simp [flush, length_watcher]
    | cons g gs =>
      have := ih (watcher f ts) (by simp)
      simp only [flush, List.foldl_cons] at this ⊢
      rw [this, length_watcher]
      omega

theorem addTimer_timers (fresh : ℚ) (timer : Timer) (s : Sequencer) :
    (addTimer fresh timer s).timers = s.timers ∨
      (addTimer fresh timer s).timers.length = s.timers.length + 1 := by
  unfold addTimer
  simp only
  split
  · right; simp
  · left; rfl

/-- C6: when the list holds at most 50 entries, after `addTimer` and the runs
of the list watcher it triggers (at least one run whenever the list was
changed) the list holds at most 50 entries, and exactly 50 when it held 50. -/
theorem addTimer_never_exceeds_fifty (fresh : ℚ) (timer : Timer) (s : Sequencer)
    (passes : List (Nat → ℚ)) (hcap : s.timers.length ≤ 50)
    (hw : (addTimer fresh timer s).timers ≠ s.timers → passes ≠ []) :
    (flush passes (addTimer fresh timer s).timers).length ≤ 50 ∧
      (s.timers.length = 50 → (flush passes (addTimer fresh timer s).timers).length = 50) := by
  by_cases hp : passes = []
  · have hsame : (addTimer fresh timer s).timers = s.timers := by
      by_contra hc
      exact hw hc hp
    subst hp
    rw [hsame]
    simp [flush, hcap]
  · rw [length_flush passes _ hp]
    rcases addTimer_timers fresh timer s with h | h
    · rw [h]; simp only [MAX_TIMERS]; omega
    · rw [h]; simp only [MAX_TIMERS]; omega

/-- C6 on a list of exactly 50 entries. -/
theorem addTimer_never_exceeds_fifty_witness :
    (flush [fun _ => 1, fun _ => 1]
      (addTimer 1 ⟨.fin 51, js "extra", 0, 0, 5, 0⟩ fiftyShort).timers).length = 50 :=
  (addTimer_never_exceeds_fifty 1 ⟨.fin 51, js "extra", 0, 0, 5, 0⟩ fiftyShort
    [fun _ => 1, fun _ => 1] (by decide) (fun _ => by simp)).2 (by decide)

theorem duration_clipName (t : Timer) : (clipName t).duration = t.duration := by
  unfold clipName; split <;> rfl

/-- A run of the watcher on a list within the cap keeps every duration. -/
theorem watcher_keeps_durations (fresh : Nat → ℚ) (ts : List Timer)
    (hcap : ts.length ≤ MAX_TIMERS) :
    (watcher fresh ts).map Timer.duration = ts.map Timer.duration := by
  unfold watcher
  rw [if_neg (by omega)]
  simp only
  have hs : (ts.mapIdx (fun i timer => sanitizeTimer (fresh i) timer)).map Timer.duration =
      ts.map Timer.duration := by
    apply List.ext_getElem (by simp)
    intro i h1 h2
    simp [sanitizeTimer]
  split
  · split
    · rw [List.map_map]
      have : Timer.duration ∘ clipName = Timer.duration := by
        funext t; exact duration_clipName t
      rw [this, hs]
    · rfl
  · split
    · exact hs
    · rfl

theorem flush_keeps_durations (passes : List (Nat → ℚ)) (ts : List Timer)
    (hcap : ts.length ≤ MAX_TIMERS) :
    (flush passes ts).map Timer.duration = ts.map Timer.duration := by
  induction passes generalizing ts with
  | nil => rfl
  | cons f fs ih =>
    have hlen : (watcher f ts).length ≤ MAX_TIMERS := by
      rw [length_watcher]; omega
    show (flush fs (watcher f ts)).map Timer.duration = _
    rw [ih _ hlen, watcher_keeps_durations f ts hcap]

/-- A run of the watcher keeps the durations of the first 50 entries, in order. -/
theorem watcher_durations (fresh : Nat → ℚ) (ts : List Timer) :
    (watcher fresh ts).map Timer.duration = (ts.map Timer.duration).take MAX_TIMERS := by
  by_cases h : ts.length ≤ MAX_TIMERS
  · rw [watcher_keeps_durations fresh ts h, List.take_of_length_le (by simpa using h)]
  · unfold watcher
    rw [if_pos (by omega), List.map_take]

/-- The durations held after any number of runs of the watcher. -/
theorem flush_durations (passes : List (Nat → ℚ)) (ts : List Timer) :
    (flush passes ts).map Timer.duration =
      if passes.isEmpty then ts.map Timer.duration
      else (ts.map Timer.duration).take MAX_TIMERS := by
  cases passes with
  | nil => rfl
  | cons f fs =>
    have hlen : (watcher f ts).length ≤ MAX_TIMERS := by
      rw [length_watcher]; omega
    show (flush fs (watcher f ts)).map Timer.duration = _
    rw [flush_keeps_durations fs _ hlen, watcher_durations]
    rfl

/-- The state in which the first tick finds the sequencer after `start(cb)` on
an idle sequencer whose entries all pass the filter, the watcher having run:
the list holds the started entries, cut to the first 50 if the watcher ran,
the cursor is on the first one and the countdown is its duration. -/
theorem start_step_ready (fresh : Nat → ℚ) (cb : Nat) (passes : List (Nat → ℚ))
    (s : Sequencer) (hne : s.timers ≠ [])
    (hvalid : ∀ t ∈ s.timers, validateTimer t = true ∧ 0 < toSeconds t)
    (hidle : s.isRunning = false) :
    ∃ first rest,
      (step s (.start fresh cb, passes)).timers = first :: rest ∧
      (first :: rest).map Timer.duration =
        (if passes.isEmpty then s.timers.map toSeconds
         else (s.timers.map toSeconds).take 50) ∧
      (s.timers.map toSeconds)[0]? = some first.duration ∧
      (∀ u ∈ first :: rest, 0 < u.duration) ∧
      (step s (.start fresh cb, passes)).currentIndex = 0 ∧
      (step s (.start fresh cb, passes)).remainingTime = first.duration ∧
      (step s (.start fresh cb, passes)).intervalId = true ∧
      (step s (.start fresh cb, passes)).isRunning = true ∧
      (step s (.start fresh cb, passes)).repeat_ = s.repeat_ ∧
      (step s (.start fresh cb, passes)).onFinish = some cb ∧
      (step s (.start fresh cb, passes)).finished = s.finished := by
  obtain ⟨first0, rest0, hdur, hstart⟩ := start_of_all_valid fresh cb s hne hvalid hidle
  have hfd := flush_durations passes (first0 :: rest0)
  rw [hdur] at hfd
  have hstep : step s (.start fresh cb, passes) =
      { start fresh cb s with timers := flush passes (first0 :: rest0) } := by
    simp [step, Op.apply, hstart]
  have hhead : (s.timers.map toSeconds)[0]? = some first0.duration := by
    rw [← hdur]; simp
  have hposall : ∀ d ∈ s.timers.map toSeconds, 0 < d := by
    intro d hd
    obtain ⟨t, ht, rfl⟩ := List.mem_map.mp hd
    exact (hvalid t ht).2
  have hheld : ∀ d ∈ (if passes.isEmpty then s.timers.map toSeconds
      else (s.timers.map toSeconds).take MAX_TIMERS), 0 < d := by
    intro d hd
    split at hd
    · exact hposall d hd
    · exact hposall d (List.mem_of_mem_take hd)
  have hheldhead : (if passes.isEmpty then s.timers.map toSeconds
      else (s.timers.map toSeconds).take MAX_TIMERS)[0]? = some first0.duration := by
    split
    · exact hhead
    · rw [List.getElem?_take, if_pos (by simp [MAX_TIMERS])]; exact hhead
  rw [← hfd] at hheld hheldhead
  cases hw : flush passes (first0 :: rest0) with
  | nil => rw [hw] at hheldhead; simp at hheldhead
  | cons first rest =>
    rw [hw] at hfd hstep hheld hheldhead
    have hfirst : first.duration = first0.duration := by simpa using hheldhead
    refine ⟨first, rest, by rw [hstep], hfd, by rw [hhead, hfirst], ?_, by rw [hstep, hstart],
      by rw [hstep, hstart, hfirst], by rw [hstep, hstart], by rw [hstep, hstart],
      by rw [hstep, hstart], by rw [hstep, hstart], by rw [hstep, hstart]⟩
    intro u hu
    exact hheld _ (List.mem_map_of_mem _ hu)

section
set_option maxRecDepth 1000000

/-- C1 as stated fails above 50 entries: 51 `addTimer` calls store 51 valid
one-second entries; after `start(cb)` the watcher cuts the list to 50, so the
run has finished and called `cb` at tick 50, while the durations sum to 51. -/
theorem start_run_is_cut_at_fifty_entries :
    (List.range 51).foldl
        (fun s i => addTimer 1 { entry (js "a") i with duration := 0 } s) Sequencer.init =
      fiftyOne ∧
      (∀ t ∈ fiftyOne.timers, validateTimer t = true ∧ 0 < toSeconds t) ∧
      fiftyOne.isRunning = false ∧ fiftyOne.repeat_ = false ∧
      (fiftyOne.timers.map toSeconds).sum = 51 ∧
      (ticks 49 (step fiftyOne (.start (fun _ => 1) 7, [fun _ => 1]))).isRunning = true ∧
      (ticks 50 (step fiftyOne (.start (fun _ => 1) 7, [fun _ => 1]))).isRunning = false ∧
      (ticks 50 (step fiftyOne (.start (fun _ => 1) 7, [fun _ => 1]))).finished = [7] := by
  decide

end

/-- C1, amended: on an idle sequencer without repeat whose list is non-empty,
holds at most 50 entries and is made of valid entries with positive durations
`d_0, ..., d_{n-1}` (the seconds `hh*3600 + mm*60 + ss` of each entry, which
`start` stores as its duration), after `start(cb)` and the runs of the list
watcher it triggers, the values of `remainingTime` over successive ticks are
`d_0, ..., 1, d_1, ..., 1, ...` through the last entry; the sequencer is
running and `cb` has not been called before tick `d_0 + ... + d_{n-1}`, and
from that tick on `isRunning` is false and `cb` has been called exactly once. -/
theorem start_counts_down_every_entry_then_finishes (fresh : Nat → ℚ) (cb : Nat)
    (passes : List (Nat → ℚ)) (s : Sequencer) (hne : s.timers ≠ [])
    (hcap : s.timers.length ≤ 50)
    (hvalid : ∀ t ∈ s.timers, validateTimer t = true ∧ 0 < toSeconds t)
    (hidle : s.isRunning = false) (hrep : s.repeat_ = false) :
    remainingTrace (s.timers.map toSeconds).sum.toNat (step s (.start fresh cb, passes)) =
        schedule (s.timers.map toSeconds) ∧
      (∀ k, k < (s.timers.map toSeconds).sum.toNat →
        (ticks k (step s (.start fresh cb, passes))).isRunning = true ∧
        (ticks k (step s (.start fresh cb, passes))).finished = s.finished) ∧
      (∀ k, (s.timers.map toSeconds).sum.toNat ≤ k →
        (ticks k (step s (.start fresh cb, passes))).isRunning = false ∧
        (ticks k (step s (.start fresh cb, passes))).finished = s.finished ++ [cb]) := by
  obtain ⟨first, rest, hts, hdur, -, hpos, hidx, hrem, harm, hrun, hrp, hcb, hfin⟩ :=
    start_step_ready fresh cb passes s hne hvalid hidle
  have hall : (first :: rest).map Timer.duration = s.timers.map toSeconds := by
    rw [hdur]
    split
    · rfl
    · exact List.take_of_length_le (by simpa using hcap)
  have h := run_of_ready_state cb (step s (.start fresh cb, passes)) first rest hts hidx hrem
    hpos harm hrun (hrp.trans hrep) hcb
  rw [hts, hall, hfin] at h
  exact h

/-- C1, amended, on durations `[2, 3]` with one run of the watcher: the values
are 2, 1, 3, 2, 1, then finished with one call. -/
theorem start_counts_down_every_entry_then_finishes_witness :
    remainingTrace 5 (step twoThree (.start (fun _ => 1) 7, [fun _ => 1])) = [2, 1, 3, 2, 1] ∧
      (ticks 4 (step twoThree (.start (fun _ => 1) 7, [fun _ => 1]))).isRunning = true ∧
      (ticks 5 (step twoThree (.start (fun _ => 1) 7, [fun _ => 1]))).isRunning = false ∧
      (ticks 5 (step twoThree (.start (fun _ => 1) 7, [fun _ => 1]))).finished = [7] :=
  have h := start_counts_down_every_entry_then_finishes (fun _ => 1) 7 [fun _ => 1] twoThree
    (by decide) (by decide) (by decide) (by decide) (by decide)
  ⟨h.1, (h.2.1 4 (by decide)).1, (h.2.2 5 (by decide)).1, (h.2.2 5 (by decide)).2⟩

/-- C3: with repeat on, after `start(cb)` on an idle sequencer whose list is
non-empty and made of valid entries with positive durations, and the runs of
the list watcher that `start` triggers (the list held is the started one, cut
to its first 50 entries if the watcher ran): after any number of ticks the
sequencer is still running and `cb` has not been called; each time the last
entry held expires (every `d_0 + ... + d_{n-1}` ticks) the cursor goes from
the last index back to 0 and `remainingTime` is set to the first entry's
duration; the countdown shown is the scheduled one, repeated; and `stop()`,
called after any number of ticks, clears `isRunning`, resets the cursor and
the countdown, and no later tick changes anything. -/
theorem repeat_returns_to_first_entry_and_never_finishes (fresh : Nat → ℚ) (cb : Nat)
    (passes : List (Nat → ℚ)) (s : Sequencer) (hne : s.timers ≠ [])
    (hvalid : ∀ t ∈ s.timers, validateTimer t = true ∧ 0 < toSeconds t)
    (hidle : s.isRunning = false) (hrep : s.repeat_ = true) :
    (step s (.start fresh cb, passes)).timers.map Timer.duration =
        (if passes.isEmpty then s.timers.map toSeconds
         else (s.timers.map toSeconds).take 50) ∧
      (∀ k, (ticks k (step s (.start fresh cb, passes))).isRunning = true ∧
        (ticks k (step s (.start fresh cb, passes))).finished = s.finished) ∧
      (∀ q, 0 < q →
        (ticks (q * ((step s (.start fresh cb, passes)).timers.map Timer.duration).sum.toNat - 1)
            (step s (.start fresh cb, passes))).currentIndex =
          (step s (.start fresh cb, passes)).timers.length - 1 ∧
        (ticks (q * ((step s (.start fresh cb, passes)).timers.map Timer.duration).sum.toNat)
            (step s (.start fresh cb, passes))).currentIndex = 0 ∧
        (s.timers.map toSeconds)[0]? =
          some (ticks
            (q * ((step s (.start fresh cb, passes)).timers.map Timer.duration).sum.toNat)
            (step s (.start fresh cb, passes))).remainingTime) ∧
      (∀ k, (schedule ((step s (.start fresh cb, passes)).timers.map Timer.duration))[k %
          ((step s (.start fresh cb, passes)).timers.map Timer.duration).sum.toNat]? =
        some (ticks k (step s (.start fresh cb, passes))).remainingTime) ∧
      (∀ k, (stop (ticks k (step s (.start fresh cb, passes)))).isRunning = false ∧
        (stop (ticks k (step s (.start fresh cb, passes)))).currentIndex = 0 ∧
        (stop (ticks k (step s (.start fresh cb, passes)))).remainingTime = 0 ∧
        (stop (ticks k (step s (.start fresh cb, passes)))).finished = s.finished ∧
        ∀ j, ticks j (stop (ticks k (step s (.start fresh cb, passes)))) =
          stop (ticks k (step s (.start fresh cb, passes)))) := by
  obtain ⟨first, rest, hts, hdur, hhead, hpos, hidx, hrem, harm, hrun, hrp, -, hfin⟩ :=
    start_step_ready fresh cb passes s hne hvalid hidle
  obtain ⟨h1, h2, h3⟩ := loop_of_ready_state (step s (.start fresh cb, passes)) first rest hts
    hidx hrem hpos harm hrun (hrp.trans hrep)
  rw [hfin] at h1
  refine ⟨by rw [hts]; exact hdur, h1, fun q hq => ?_, h3, fun k => ?_⟩
  · obtain ⟨e1, e2, e3⟩ := h2 q hq
    exact ⟨e1, e2, by rw [hhead, e3]⟩
  · exact ⟨rfl, rfl, rfl, (h1 k).2, fun j => ticks_disarmed j _ rfl⟩

/-- C3 on durations `[2, 3]` with repeat and one run of the watcher: index 0
and remaining 2 after the fifth tick, still running after 1000 ticks, stopped
by `stop()`. -/
theorem repeat_returns_to_first_entry_and_never_finishes_witness :
    (ticks 4 (step { twoThree with repeat_ := true }
        (.start (fun _ => 1) 7, [fun _ => 1]))).currentIndex = 1 ∧
      (ticks 5 (step { twoThree with repeat_ := true }
        (.start (fun _ => 1) 7, [fun _ => 1]))).currentIndex = 0 ∧
      (ticks 5 (step { twoThree with repeat_ := true }
        (.start (fun _ => 1) 7, [fun _ => 1]))).remainingTime = 2 ∧
      (ticks 1000 (step { twoThree with repeat_ := true }
        (.start (fun _ => 1) 7, [fun _ => 1]))).isRunning = true ∧
      (ticks 1000 (step { twoThree with repeat_ := true }
        (.start (fun _ => 1) 7, [fun _ => 1]))).finished = [] ∧
      (stop (ticks 1000 (step { twoThree with repeat_ := true }
        (.start (fun _ => 1) 7, [fun _ => 1])))).isRunning = false :=
  have h := repeat_returns_to_first_entry_and_never_finishes (fun _ => 1) 7 [fun _ => 1]
    { twoThree with repeat_ := true } (by decide) (by decide) (by decide) (by decide)
  ⟨(h.2.2.1 1 (by decide)).1, (h.2.2.1 1 (by decide)).2.1,
    (Option.some.inj (h.2.2.1 1 (by decide)).2.2).symm, (h.2.1 1000).1, (h.2.1 1000).2,
    (h.2.2.2.2 1000).1⟩

theorem sanitizeNumber_of_mem_range (v lo hi : Int) (h : lo ≤ v ∧ v ≤ hi) :
    sanitizeNumber v lo hi = v := by
  simp only [sanitizeNumber]
  omega

theorem isValidTime_sanitizeNumber (v : Int) :
    isValidTime .hh (sanitizeNumber v 0 23) = true ∧
      isValidTime .mm (sanitizeNumber v 0 59) = true ∧
      isValidTime .ss (sanitizeNumber v 0 59) = true := by
  simp only [isValidTime, sanitizeNumber]
  refine ⟨?_, ?_, ?_⟩ <;> simp

/-- The id kept or generated by `sanitizeId` passes `isValidId` unless the given
id is `MAX_SAFE_INTEGER` itself, provided the generated value is a valid id. -/
theorem isValidId_sanitizeId (fresh : ℚ) (id : JsNum)
    (hfresh : 0 < fresh ∧ fresh < MAX_SAFE_INTEGER) :
    isValidId (sanitizeId fresh id) = true ↔ id ≠ .fin MAX_SAFE_INTEGER := by
  cases id with
  | nan => simp [sanitizeId, isValidId, JsNum.isNaN, JsNum.lt, hfresh.1, hfresh.2]
  | negInf => simp [sanitizeId, isValidId, JsNum.isNaN, JsNum.le, JsNum.lt, hfresh.1, hfresh.2]
  | posInf => simp [sanitizeId, isValidId, JsNum.isNaN, JsNum.le, JsNum.lt, hfresh.1, hfresh.2]
  | fin q =>
    by_cases h : q ≤ 0 ∨ MAX_SAFE_INTEGER < q
    · have hne : q ≠ MAX_SAFE_INTEGER := by
        rcases h with h | h
        · intro hq; rw [hq] at h; norm_num [MAX_SAFE_INTEGER] at h
        · exact ne_of_gt h
      simp [sanitizeId, isValidId, JsNum.isNaN, JsNum.le, JsNum.lt, h, hfresh.1, hfresh.2, hne]
    · have h1 : 0 < q := by by_contra hc; exact h (Or.inl (not_lt.mp hc))
      have h2 : q ≤ MAX_SAFE_INTEGER := by by_contra hc; exact h (Or.inr (not_le.mp hc))
      have h3 : ¬ q ≤ 0 := not_le.mpr h1
      have h4 : ¬ MAX_SAFE_INTEGER < q := not_lt.mpr h2
      simp [sanitizeId, isValidId, JsNum.isNaN, JsNum.le, JsNum.lt, h1, h3, h4, lt_iff_le_and_ne, h2]

/-- C2 as stated fails: the in-range timer `{id: 1, name: 'a', hh: 0, mm: 0, ss: 0}`
has a valid id and name and duration 0, and `addTimer` appends it. -/
theorem addTimer_appends_zero_duration_entry :
    (addTimer 1 zeroTimer Sequencer.init).timers = [zeroTimer] ∧
      ¬ ((addTimer 1 zeroTimer Sequencer.init).timers.length =
            Sequencer.init.timers.length + 1 ↔
          (zeroTimer.hh * 3600 + zeroTimer.mm * 60 + zeroTimer.ss > 0 ∧
            isValidId zeroTimer.id = true ∧ isValidName zeroTimer.name = true)) := by
  decide

/-- C2, amended: for a timer object whose `hh`, `mm`, `ss` are integers in
[0,23], [0,59], [0,59], `addTimer` appends an entry exactly when the sanitised
id and the sanitised name pass `isValidId` and `isValidName`, whatever the
duration, and otherwise leaves the state as it is; the appended entry carries
the sanitised id and name, the given `hh`, `mm`, `ss`, and the duration
`hh*3600 + mm*60 + ss`. -/
theorem addTimer_appends_iff_sanitized_id_and_name_valid (fresh : ℚ) (timer : Timer)
    (s : Sequencer) (hhh : 0 ≤ timer.hh ∧ timer.hh ≤ 23) (hmm : 0 ≤ timer.mm ∧ timer.mm ≤ 59)
    (hss : 0 ≤ timer.ss ∧ timer.ss ≤ 59) :
    (isValidId (sanitizeId fresh timer.id) = true ∧
        isValidName (sanitizeName timer.name) = true →
      (addTimer fresh timer s).timers = s.timers ++
        [{ id := sanitizeId fresh timer.id, name := sanitizeName timer.name,
           hh := timer.hh, mm := timer.mm, ss := timer.ss,
           duration := timer.hh * 3600 + timer.mm * 60 + timer.ss }]) ∧
      (¬ (isValidId (sanitizeId fresh timer.id) = true ∧
          isValidName (sanitizeName timer.name) = true) →
        addTimer fresh timer s = s) := by
  have e1 := sanitizeNumber_of_mem_range timer.hh 0 23 hhh
  have e2 := sanitizeNumber_of_mem_range timer.mm 0 59 hmm
  have e3 := sanitizeNumber_of_mem_range timer.ss 0 59 hss
  have ht := isValidTime_sanitizeNumber
  constructor
  · rintro ⟨hid, hname⟩
    have hv : validateTimer (sanitizeTimer fresh timer) = true := by
      simp [validateTimer, sanitizeTimer, hid, hname, (ht timer.hh).1, (ht timer.mm).2.1,
        (ht timer.ss).2.2]
    simp only [addTimer, hv, ↓reduceIte]
    simp [sanitizeTimer, toSeconds, e1, e2, e3]
  · intro h
    have hv : validateTimer (sanitizeTimer fresh timer) = false := by
      simp only [validateTimer, sanitizeTimer]
      by_cases hid : isValidId (sanitizeId fresh timer.id) = true
      · have hname : isValidName (sanitizeName timer.name) = false := by
          cases hn : isValidName (sanitizeName timer.name)
          · rfl
          · exact absurd ⟨hid, hn⟩ h
        simp [hid, hname]
      · simp [hid]
    simp [addTimer, hv]

/-- C2, amended, on `{id: 7, name: 'Warm up', hh: 1, mm: 2, ss: 3}`. -/
theorem addTimer_appends_iff_sanitized_id_and_name_valid_witness :
    (addTimer 1 ⟨.fin 7, js "Warm up", 1, 2, 3, 0⟩ Sequencer.init).timers =
      [⟨.fin 7, js "Warm up", 1, 2, 3, 3723⟩] :=
  (addTimer_appends_iff_sanitized_id_and_name_valid 1 ⟨.fin 7, js "Warm up", 1, 2, 3, 0⟩
    Sequencer.init (by decide) (by decide) (by decide)).1 (by decide)

theorem mem_trim {s : JsString} {c : Nat} (h : c ∈ trim s) : c ∈ s :=
  (List.dropWhile_sublist _).subset ((List.rdropWhile_prefix _ _).subset h)

/-- No dangerous character survives `sanitizeName`. -/
theorem sanitizeName_strips_dangerous (name : JsString) :
    ∀ c ∈ sanitizeName name, isDangerous c = false := by
  intro c hc
  unfold sanitizeName at hc
  split at hc
  · cases hc
  · have := mem_trim hc
    simpa using (List.mem_filter.mp this).2

theorem not_dangerous_of_pattern_free (name : JsString) (h : dangerousPattern name = false) :
    ∀ c ∈ name, isDangerous c = false := by
  induction name with
  | nil => intro c hc; cases hc
  | cons a as ih =>
    simp only [dangerousPattern, Bool.or_eq_false_iff] at h
    intro c hc
    rcases List.mem_cons.mp hc with rfl | hc
    · exact h.1.1.1
    · exact ih h.2 c hc

theorem trim_eq_self (s : JsString) (hhead : ∀ c, s.head? = some c → isTrimmed c = false)
    (hlast : ∀ c, s.getLast? = some c → isTrimmed c = false) : trim s = s := by
  unfold trim
  have h1 : s.dropWhile isTrimmed = s := by
    cases s with
    | nil => rfl
    | cons a as => simp [List.dropWhile, hhead a rfl]
  rw [h1, List.rdropWhile_eq_self_iff]
  intro hl
  have := hlast _ (List.getLast?_eq_getLast s hl)
  simp [this]

/-- A name within 32 code units that the blacklist pattern does not match and
that has no white space at either end is returned as is by `sanitizeName`. -/
theorem sanitizeName_eq_self (name : JsString) (hlen : name.length ≤ 32)
    (hclean : dangerousPattern name = false)
    (hhead : ∀ c, name.head? = some c → isTrimmed c = false)
    (hlast : ∀ c, name.getLast? = some c → isTrimmed c = false) :
    sanitizeName name = name := by
  unfold sanitizeName
  split
  · rename_i h; exact h.symm
  · have h1 : name.take MAX_NAME_LENGTH = name := List.take_of_length_le hlen
    have h2 : name.filter (fun c => !isDangerous c) = name := by
      rw [List.filter_eq_self]
      intro c hc
      simp [not_dangerous_of_pattern_free name hclean c hc]
    simp only [h1, h2]
    exact trim_eq_self name hhead hlast

/-- C5 as stated fails: `script`, ` a` and `a{b` have at most 32 code units
and no angle bracket; in an otherwise valid timer object the first is rejected
and the other two are stored as `a` and `ab`. -/
theorem addTimer_does_not_keep_every_short_bracket_free_name :
    ((js "script").length ≤ 32 ∧ 60 ∉ js "script" ∧ 62 ∉ js "script" ∧
        addTimer 1 ⟨.fin 1, js "script", 0, 0, 5, 0⟩ Sequencer.init = Sequencer.init) ∧
      ((js " a").length ≤ 32 ∧ 60 ∉ js " a" ∧ 62 ∉ js " a" ∧
        (addTimer 1 ⟨.fin 1, js " a", 0, 0, 5, 0⟩ Sequencer.init).timers.map Timer.name =
          [js "a"]) ∧
      ((js "a\x7bb").length ≤ 32 ∧ 60 ∉ js "a\x7bb" ∧ 62 ∉ js "a\x7bb" ∧
        (addTimer 1 ⟨.fin 1, js "a\x7bb", 0, 0, 5, 0⟩ Sequencer.init).timers.map Timer.name =
          [js "ab"]) := by
  decide

/-- C5, amended: whatever the name, `addTimer` either leaves the state as it
is or appends one entry whose name contains none of `<`, `>`, `{`, `}`, `[`,
`]` and the backslash; and when the name has at most 32 code units, is not
matched by the blacklist pattern (none of those characters, no `script` in any
letter case) and has no white space at either end, and the sanitised id is
valid, the entry is appended with the name kept code unit for code unit. -/
theorem addTimer_strips_brackets_and_keeps_clean_names (fresh : ℚ) (timer : Timer)
    (s : Sequencer) :
    (addTimer fresh timer s = s ∨
        ∃ stored, (addTimer fresh timer s).timers = s.timers ++ [stored] ∧
          ∀ c ∈ stored.name, isDangerous c = false ∧ c ≠ 60 ∧ c ≠ 62) ∧
      (timer.name.length ≤ 32 → dangerousPattern timer.name = false →
        (∀ c, timer.name.head? = some c → isTrimmed c = false) →
        (∀ c, timer.name.getLast? = some c → isTrimmed c = false) →
        isValidId (sanitizeId fresh timer.id) = true →
        ∃ stored, (addTimer fresh timer s).timers = s.timers ++ [stored] ∧
          stored.name = timer.name) := by
  constructor
  · unfold addTimer
    simp only
    split
    · right
      refine ⟨_, rfl, fun c hc => ?_⟩
      have hd : isDangerous c = false := sanitizeName_strips_dangerous timer.name c hc
      refine ⟨hd, ?_, ?_⟩ <;> (rintro rfl; simp [isDangerous] at hd)
    · left; rfl
  · intro hlen hclean hhead hlast hid
    have hname := sanitizeName_eq_self timer.name hlen hclean hhead hlast
    have hvn : isValidName timer.name = true := by
      simp [isValidName, hclean, MAX_NAME_LENGTH, hlen]
    have ht := isValidTime_sanitizeNumber
    have hv : validateTimer (sanitizeTimer fresh timer) = true := by
      simp [validateTimer, sanitizeTimer, hid, hname, hvn, (ht timer.hh).1, (ht timer.mm).2.1,
        (ht timer.ss).2.2]
    refine ⟨{ sanitizeTimer fresh timer with duration := toSeconds (sanitizeTimer fresh timer) },
      ?_, ?_⟩
    · simp only [addTimer, hv, ↓reduceIte]
    · simp [sanitizeTimer, hname]

/-- C5, amended, on the names `<script>` (rejected) and `Warm up 1` (kept). -/
theorem addTimer_strips_brackets_and_keeps_clean_names_witness :
    addTimer 1 ⟨.fin 1, js "<script>", 0, 0, 5, 0⟩ Sequencer.init = Sequencer.init ∧
      ∃ stored, (addTimer 1 ⟨.fin 1, js "Warm up 1", 0, 0, 5, 0⟩ Sequencer.init).timers =
        Sequencer.init.timers ++ [stored] ∧ stored.name = js "Warm up 1" :=
  ⟨by decide,
    (addTimer_strips_brackets_and_keeps_clean_names 1 ⟨.fin 1, js "Warm up 1", 0, 0, 5, 0⟩
      Sequencer.init).2 (by decide) (by decide) (by decide) (by decide) (by decide)⟩

/-- A muted player returns `null` at once and changes nothing, whatever the key. -/
theorem play_muted (p : AudioPlayer) (soundKey : SoundKey) (h : p.isMuted = true) :
    AudioPlayer.play p soundKey = (p, .returned none) := by
  simp [AudioPlayer.play, h]

/-- A call entered while the counter is at the cap returns `null` at once and
changes nothing. -/
theorem play_at_cap (p : AudioPlayer) (soundKey : SoundKey)
    (h : p.activeSounds ≥ p.maxConcurrentSounds) :
    AudioPlayer.play p soundKey = (p, .returned none) := by
  simp only [AudioPlayer.play, h]
  split <;> simp

/-- C9 at the failing input: on an initialised, unmuted player with no active
sound, four calls `play('buttonClick')` made back to back are each suspended
at the load of the buffer with the counter still at 0; resumed in turn, each
returns a handle and the counter ends at 4, above `maxConcurrentSounds = 3`. -/
theorem four_overlapping_plays_all_return_a_handle :
    readyPlayer.isMuted = false ∧ readyPlayer.maxConcurrentSounds = 3 ∧
      readyPlayer.activeSounds = 0 ∧
      AudioPlayer.play readyPlayer .buttonClick =
        (readyPlayer, .awaiting (.load readyPlayer.buttonClick)) ∧
      (AudioPlayer.playResume browser readyPlayer (.load readyPlayer.buttonClick)).2 =
        .returned (some 0) ∧
      (AudioPlayer.playResume browser
        (AudioPlayer.playResume browser readyPlayer (.load readyPlayer.buttonClick)).1
        (.load readyPlayer.buttonClick)).2 = .returned (some 1) ∧
      (AudioPlayer.playResume browser
        (AudioPlayer.playResume browser
          (AudioPlayer.playResume browser readyPlayer (.load readyPlayer.buttonClick)).1
          (.load readyPlayer.buttonClick)).1
        (.load readyPlayer.buttonClick)).2 = .returned (some 2) ∧
      AudioPlayer.playResume browser
        (AudioPlayer.playResume browser
          (AudioPlayer.playResume browser
            (AudioPlayer.playResume browser readyPlayer (.load readyPlayer.buttonClick)).1
            (.load readyPlayer.buttonClick)).1
          (.load readyPlayer.buttonClick)).1
        (.load readyPlayer.buttonClick) =
        ({ readyPlayer with
            sounds := ("/sounds/button-click.wav", 0) :: readyPlayer.sounds
            activeSounds := 4
            started := 4 }, .returned (some 3)) := by
  decide

theorem sanitizeId_of_valid (fresh : ℚ) (id : JsNum) (h : isValidId id = true) :
    sanitizeId fresh id = id := by
  cases id with
  | nan => simp [isValidId, JsNum.lt] at h
  | negInf => simp [isValidId, JsNum.lt] at h
  | posInf => simp [isValidId, JsNum.lt] at h
  | fin q =>
    simp only [isValidId, JsNum.lt, Bool.and_eq_true, decide_eq_true_eq] at h
    simp [sanitizeId, JsNum.isNaN, JsNum.le, JsNum.lt, not_le.mpr h.1, not_lt.mpr (le_of_lt h.2)]

/-- On a list whose ids are all valid the watcher never consults the generated ids. -/
theorem watcher_congr_of_valid_ids (f g : Nat → ℚ) (ts : List Timer)
    (h : ∀ t ∈ ts, isValidId t.id = true) : watcher f ts = watcher g ts := by
  have hm : ts.mapIdx (fun i timer => sanitizeTimer (f i) timer) =
      ts.mapIdx (fun i timer => sanitizeTimer (g i) timer) := by
    apply List.ext_getElem (by simp)
    intro i h1 h2
    have hi : i < ts.length := by simpa using h1
    have hv := h ts[i] (List.getElem_mem hi)
    simp [sanitizeTimer, sanitizeId_of_valid _ _ hv]
  simp only [watcher, hm]

/-- C10 at the failing input: fifty `addTimer` calls with distinct ids and a
clean 32-character name store fifty entries; the watcher cuts every name to 23
code units, which leaves a total of 1150, above `MAX_TOTAL_CHARS = 1000`, and
further runs of the watcher change nothing. -/
theorem watcher_leaves_total_name_length_above_limit (fresh : Nat → ℚ) :
    (List.range 50).foldl
        (fun s i => addTimer 1 { entry longName i with duration := 0 } s) Sequencer.init =
      fiftyLong ∧
      fiftyLong.timers.length ≤ 50 ∧
      ((watcher fresh fiftyLong.timers).map (fun t => t.name.length)).sum = 1150 ∧
      watcher fresh (watcher fresh fiftyLong.timers) = watcher fresh fiftyLong.timers := by
  have hv : ∀ t ∈ fiftyLong.timers, isValidId t.id = true := by decide
  have hw := watcher_congr_of_valid_ids fresh (fun _ => 1) fiftyLong.timers hv
  have hv2 : ∀ t ∈ watcher (fun _ => 1) fiftyLong.timers, isValidId t.id = true := by decide
  have hw2 := watcher_congr_of_valid_ids fresh (fun _ => 1) _ hv2
  rw [hw, hw2]
  decide

section
set_option maxRecDepth 1000000

/-- The same fifty `addTimer` calls made one per task, the watcher running
after each, also end with names that total 1150 code units. -/
theorem watcher_after_each_add_leaves_total_above_limit :
    (runOps addsWithWatch Sequencer.init).timers.length = 50 ∧
      ((runOps addsWithWatch Sequencer.init).timers.map (fun t => t.name.length)).sum = 1150 := by
  decide

end

/-- C7 at the failing input: after `addTimer`, `start(cb)` and the tick that
finishes the run, `resume()` sets `isRunning` again with `currentIndex = 1` on
a list of one entry, and the next tick calls `cb` a second time; and after
`addTimer`, `start(cb)`, `removeTimer` of the running entry, the sequencer is
running with `currentIndex = 0` on an empty list. -/
theorem running_cursor_can_leave_the_list :
    ((runOps resumeAfterFinish Sequencer.init).isRunning = true ∧
        (runOps resumeAfterFinish Sequencer.init).currentIndex = 1 ∧
        (runOps resumeAfterFinish Sequencer.init).timers.length = 1 ∧
        (runOps (resumeAfterFinish.take 3) Sequencer.init).finished = [7] ∧
        (runOps (resumeAfterFinish ++ [(.tick, [])]) Sequencer.init).finished = [7, 7]) ∧
      ((runOps removeWhileRunning Sequencer.init).isRunning = true ∧
        (runOps removeWhileRunning Sequencer.init).currentIndex = 0 ∧
        (runOps removeWhileRunning Sequencer.init).timers.length = 0) := by
  decide

theorem length_flush_of_le (passes : List (Nat → ℚ)) (ts : List Timer)
    (h : ts.length ≤ MAX_TIMERS) : (flush passes ts).length = ts.length := by
  cases passes with
  | nil => rfl
  | cons f fs => rw [length_flush _ _ (by simp)]; omega

theorem loadCurrent_fields (s : Sequencer) :
    (loadCurrent s).timers = s.timers ∧ (loadCurrent s).currentIndex = s.currentIndex ∧
      (loadCurrent s).isRunning = s.isRunning := by
  unfold loadCurrent; split <;> exact ⟨rfl, rfl, rfl⟩

theorem finish_fields (s : Sequencer) :
    (finish s).timers = s.timers ∧ (finish s).isRunning = false := by
  unfold finish; simp only; split <;> exact ⟨rfl, rfl⟩

theorem next_keeps_cursor_in_range (s : Sequencer)
    (h : s.isRunning = true → s.currentIndex < s.timers.length) :
    (next s).timers = s.timers ∧
      ((next s).isRunning = true → (next s).currentIndex < (next s).timers.length) := by
  unfold next
  simp only
  split
  · split
    · obtain ⟨h1, h2, h3⟩ := loadCurrent_fields
        { ({ s with currentIndex := s.currentIndex + 1 } : Sequencer) with currentIndex := 0 }
      refine ⟨h1, fun hr => ?_⟩
      rw [h3] at hr
      rw [h1, h2]
      have := h hr
      show 0 < s.timers.length
      omega
    · obtain ⟨h1, h2⟩ := finish_fields { s with currentIndex := s.currentIndex + 1 }
      exact ⟨h1, fun hr => by rw [h2] at hr; cases hr⟩
  · rename_i hlt
    obtain ⟨h1, h2, h3⟩ := loadCurrent_fields { s with currentIndex := s.currentIndex + 1 }
    refine ⟨h1, fun _ => ?_⟩
    rw [h1, h2]
    show s.currentIndex + 1 < s.timers.length
    simp only [ge_iff_le, not_le] at hlt
    exact hlt

theorem tick_keeps_cursor_in_range (s : Sequencer)
    (h : s.isRunning = true → s.currentIndex < s.timers.length) :
    (tick s).timers = s.timers ∧
      ((tick s).isRunning = true → (tick s).currentIndex < (tick s).timers.length) := by
  unfold tick
  split
  · exact ⟨rfl, h⟩
  · split
    · simp only
      split
      · exact next_keeps_cursor_in_range
          { s with soundsScheduled := s.soundsScheduled + 1 } h
      · exact next_keeps_cursor_in_range s h
    · exact ⟨rfl, h⟩

theorem start_keeps_cursor_in_range (fresh : Nat → ℚ) (cb : Nat) (s : Sequencer)
    (h : s.isRunning = true → s.currentIndex < s.timers.length) :
    (start fresh cb s).timers.length ≤ s.timers.length ∧
      ((start fresh cb s).isRunning = true →
        (start fresh cb s).currentIndex < (start fresh cb s).timers.length) := by
  unfold start
  split
  · exact ⟨le_refl _, h⟩
  · simp only
    split
    · exact ⟨le_refl _, h⟩
    · rename_i hlen
      obtain ⟨h1, h2, h3⟩ := loadCurrent_fields
        { s with
          timers := (s.timers.filter
            (fun t => validateTimer t && decide (toSeconds t > 0))).mapIdx
              (fun i t => { sanitizeTimer (fresh i) t with duration := toSeconds t })
          onFinish := some cb
          isRunning := true
          currentIndex := 0 }
      simp only [run]
      rw [h1, h2]
      simp only [List.length_mapIdx]
      exact ⟨List.length_filter_le _ _, fun _ => Nat.pos_of_ne_zero hlen⟩

/-- On every run whose steps satisfy `Guard` the list holds at most 50 entries
and, while `isRunning` is true, `currentIndex < timers.length`. -/
theorem cursor_in_range_on_guarded_runs (s : Sequencer) (hs : GuardedReach s) :
    s.timers.length ≤ 50 ∧ (s.isRunning = true → s.currentIndex < s.timers.length) := by
  induction hs with
  | init => exact ⟨by decide, by decide⟩
  | step s op _ hg ih =>
    obtain ⟨hcap, hin⟩ := ih
    obtain ⟨o, passes⟩ := op
    cases o with
    | addTimer fresh timer =>
      have hp : passes ≠ [] := hg
      have hl : (step s (.addTimer fresh timer, passes)).timers.length =
          min (addTimer fresh timer s).timers.length MAX_TIMERS := by
        simp only [step, Op.apply]; exact length_flush _ _ hp
      have hf : (step s (.addTimer fresh timer, passes)).isRunning = s.isRunning ∧
          (step s (.addTimer fresh timer, passes)).currentIndex = s.currentIndex := by
        simp only [step, Op.apply, addTimer]; split <;> exact ⟨rfl, rfl⟩
      rw [hl, hf.1, hf.2]
      simp only [MAX_TIMERS]
      rcases addTimer_timers fresh timer s with h | h
      · rw [h]; exact ⟨by omega, fun hr => by have := hin hr; omega⟩
      · rw [h]; exact ⟨by omega, fun hr => by have := hin hr; omega⟩
    | removeTimer fresh id =>
      have hidle : s.isRunning = false := hg
      have hle : (removeTimer fresh id s).timers.length ≤ s.timers.length :=
        List.length_filter_le _ _
      have hl : (step s (.removeTimer fresh id, passes)).timers.length =
          (removeTimer fresh id s).timers.length := by
        simp only [step, Op.apply]
        exact length_flush_of_le _ _ (by simp only [MAX_TIMERS]; omega)
      have hf : (step s (.removeTimer fresh id, passes)).isRunning = false := hidle
      rw [hl, hf]
      exact ⟨by omega, by simp⟩
    | updateTimerName fresh id newName =>
      have hsame : (updateTimerName fresh id newName s).timers.length = s.timers.length ∧
          (updateTimerName fresh id newName s).isRunning = s.isRunning ∧
          (updateTimerName fresh id newName s).currentIndex = s.currentIndex := by
        unfold updateTimerName
        simp only
        split
        · split
          · exact ⟨by simp, rfl, rfl⟩
          · exact ⟨rfl, rfl, rfl⟩
        · exact ⟨rfl, rfl, rfl⟩
      have hl : (step s (.updateTimerName fresh id newName, passes)).timers.length =
          s.timers.length := by
        simp only [step, Op.apply]
        rw [length_flush_of_le _ _ (by rw [hsame.1]; simp only [MAX_TIMERS]; omega), hsame.1]
      have hr : (step s (.updateTimerName fresh id newName, passes)).isRunning = s.isRunning :=
        hsame.2.1
      have hi : (step s (.updateTimerName fresh id newName, passes)).currentIndex =
          s.currentIndex := hsame.2.2
      rw [hl, hr, hi]
      exact ⟨hcap, hin⟩
    | start fresh callback =>
      obtain ⟨h1, h2⟩ := start_keeps_cursor_in_range fresh callback s hin
      have hl : (step s (.start fresh callback, passes)).timers.length =
          (start fresh callback s).timers.length := by
        simp only [step, Op.apply]
        exact length_flush_of_le _ _ (by simp only [MAX_TIMERS]; omega)
      have hr : (step s (.start fresh callback, passes)).isRunning =
          (start fresh callback s).isRunning := rfl
      have hi : (step s (.start fresh callback, passes)).currentIndex =
          (start fresh callback s).currentIndex := rfl
      rw [hl, hr, hi]
      exact ⟨by omega, h2⟩
    | tick =>
      obtain ⟨h1, h2⟩ := tick_keeps_cursor_in_range s hin
      have hl : (step s (.tick, passes)).timers.length = (tick s).timers.length := by
        simp only [step, Op.apply]
        exact length_flush_of_le _ _ (by rw [h1]; simp only [MAX_TIMERS]; omega)
      have hr : (step s (.tick, passes)).isRunning = (tick s).isRunning := rfl
      have hi : (step s (.tick, passes)).currentIndex = (tick s).currentIndex := rfl
      rw [hl, hr, hi]
      exact ⟨by rw [h1]; exact hcap, h2⟩
    | pause =>
      have hl : (step s (.pause, passes)).timers.length = s.timers.length := by
        simp only [step, Op.apply, pause]
        exact length_flush_of_le _ _ (by simp only [MAX_TIMERS]; omega)
      have hr : (step s (.pause, passes)).isRunning = false := rfl
      rw [hl, hr]
      exact ⟨hcap, by simp⟩
    | resume =>
      have hcur : s.currentIndex < s.timers.length := hg
      have hsame : (resume s).timers = s.timers ∧ (resume s).currentIndex = s.currentIndex := by
        unfold resume; split <;> exact ⟨rfl, rfl⟩
      have hl : (step s (.resume, passes)).timers.length = s.timers.length := by
        simp only [step, Op.apply]
        rw [hsame.1]
        exact length_flush_of_le _ _ (by simp only [MAX_TIMERS]; omega)
      have hi : (step s (.resume, passes)).currentIndex = s.currentIndex := hsame.2
      rw [hl, hi]
      exact ⟨hcap, fun _ => hcur⟩
    | stop =>
      have hl : (step s (.stop, passes)).timers.length = s.timers.length := by
        simp only [step, Op.apply, stop]
        exact length_flush_of_le _ _ (by simp only [MAX_TIMERS]; omega)
      have hr : (step s (.stop, passes)).isRunning = false := rfl
      rw [hl, hr]
      exact ⟨hcap, by simp⟩

end Cronos
